import Mathlib

/-!
# Ring buffer of the libretro audio driver

Shallow embedding of `push_audio` and `pop_audio` from
`src/audio/libretro/SDL_LIBRETROaudio.c`.

Modelling conventions.

* The `size_t` quantities (`mixlen`, `ringbuffer_size`, the two cursors and the
  occupancy) are natural numbers.  Byte counts are taken to be small against the
  word size, so that no sum wraps.  Subtraction on naturals stops at zero where C
  wraps; the theorems are stated where no subtraction goes below zero (cursors
  below the capacity, chunk no longer than the capacity, occupancy at most the
  capacity and, for `used -= submitted`, a sink that reports no more than it was
  offered), so both agree there.  Outside that domain `push_audio` says nothing
  about the C code; `push_audio_checked` makes the side conditions explicit.
* A byte buffer is a map from a byte offset to the byte stored there, so that
  `ringbuffer + off` is the pair of the map and `off`.  Bytes are naturals.
* The sink `libretro_audio_sample_batch_cb`, defined outside this file, is a
  parameter: a function of its own state, the memory and offset behind the data
  pointer, and the frame count, which reports the frames it took and its next
  state.  A frame is 4 bytes, as the divisions and the product by 4 in
  `pop_audio` have it.  `logged` records the offset and frame count of each call,
  `handed` the bytes read through the pointer each call received.
* `SDL_mutexP` / `SDL_mutexV` bracket both functions and touch none of the
  fields embedded here.
* `LIBRETRO_OpenAudio` calls into the rest of SDL; what `SDL_AllocAudioMem`,
  `SDL_CreateMutex` and `SDL_malloc` return, and the value of the floating point
  expression for `write_delay`, are parameters.  A pointer field is the contents
  behind it (in the ring buffer fields) together with a flag for non-NULL.
-/

namespace SDLLibretroAudio

/-- The fields of `struct SDL_PrivateAudioData` used by the ring buffer. -/
structure SDL_PrivateAudioData where
  mixbuf : Nat → Nat
  mixlen : Nat
  ringbuffer : Nat → Nat
  ringbuffer_size : Nat
  ringbuffer_writepos : Nat
  ringbuffer_readpos : Nat
  ringbuffer_used : Nat

/-- The C call `memcpy(dst + doff, src + soff, n)`: the resulting contents of `dst`. -/
def memcpy (dst : Nat → Nat) (doff : Nat) (src : Nat → Nat) (soff n : Nat) : Nat → Nat :=
  fun j => if doff ≤ j ∧ j < doff + n then src (soff + (j - doff)) else dst j

/-- Embedding of `push_audio` (source lines 51-79).  It agrees with the C code where
`ringbuffer_writepos < ringbuffer_size` and `mixlen <= ringbuffer_size`, so that the
subtraction on line 60 does not wrap and both `memcpy` calls stay in bounds. -/
def push_audio (pdata : SDL_PrivateAudioData) : SDL_PrivateAudioData :=
  let first_chunk :=
    if pdata.ringbuffer_writepos + pdata.mixlen > pdata.ringbuffer_size
    then pdata.ringbuffer_size - pdata.ringbuffer_writepos else pdata.mixlen
  let second_chunk :=
    if pdata.ringbuffer_writepos + pdata.mixlen > pdata.ringbuffer_size
    then pdata.mixlen - first_chunk else 0
  let ringbuffer1 :=
    memcpy pdata.ringbuffer pdata.ringbuffer_writepos pdata.mixbuf 0 first_chunk
  let ringbuffer2 := memcpy ringbuffer1 0 pdata.mixbuf first_chunk second_chunk
  let writepos := (pdata.ringbuffer_writepos + pdata.mixlen) % pdata.ringbuffer_size
  let used := pdata.ringbuffer_used + pdata.mixlen
  if used > pdata.ringbuffer_size then
    { pdata with
      ringbuffer := ringbuffer2
      ringbuffer_writepos := writepos
      ringbuffer_readpos :=
        (pdata.ringbuffer_readpos + used - pdata.ringbuffer_size) % pdata.ringbuffer_size
      ringbuffer_used := pdata.ringbuffer_size }
  else
    { pdata with
      ringbuffer := ringbuffer2
      ringbuffer_writepos := writepos
      ringbuffer_used := used }

/-- The sink `libretro_audio_sample_batch_cb(data, frames)`, with its own
state made explicit; the data pointer is the memory and the byte offset into it. -/
abbrev BatchCb (σ : Type) := σ → (Nat → Nat) → Nat → Nat → Nat × σ

/-- Frames offered by the first sink call of `pop_audio` (source lines 85-94). -/
def pop_first_chunk (pdata : SDL_PrivateAudioData) : Nat :=
  (if pdata.ringbuffer_readpos + pdata.ringbuffer_used > pdata.ringbuffer_size
   then pdata.ringbuffer_size - pdata.ringbuffer_readpos
   else pdata.ringbuffer_used) / 4

/-- Frames of the wrapped-around part in `pop_audio` (source lines 86-95). -/
def pop_second_chunk (pdata : SDL_PrivateAudioData) : Nat :=
  (if pdata.ringbuffer_readpos + pdata.ringbuffer_used > pdata.ringbuffer_size
   then pdata.ringbuffer_used - (pdata.ringbuffer_size - pdata.ringbuffer_readpos)
   else 0) / 4

/-- The one or two sink calls of `pop_audio` (source lines 98-102): the value of
`submitted` in frames and the sink state afterwards. -/
def pop_submit {σ : Type} (cb : BatchCb σ) (pdata : SDL_PrivateAudioData) (w : σ) : Nat × σ :=
  let r1 := cb w pdata.ringbuffer pdata.ringbuffer_readpos (pop_first_chunk pdata)
  if r1.1 = pop_first_chunk pdata ∧ pop_second_chunk pdata > 0 then
    let r2 := cb r1.2 pdata.ringbuffer 0 (pop_second_chunk pdata)
    (r1.1 + r2.1, r2.2)
  else r1

/-- Embedding of `pop_audio` (source lines 81-110). -/
def pop_audio {σ : Type} (cb : BatchCb σ) (pdata : SDL_PrivateAudioData) (w : σ) :
    SDL_PrivateAudioData × σ :=
  let r := pop_submit cb pdata w
  let submitted := r.1 * 4
  ({ pdata with
     ringbuffer_readpos := (pdata.ringbuffer_readpos + submitted) % pdata.ringbuffer_size
     ringbuffer_used := pdata.ringbuffer_used - submitted }, r.2)

/-- The mixer writes the next chunk into `mixbuf`, the buffer handed out by
`LIBRETRO_GetAudioBuf`. -/
def fill_mixbuf (pdata : SDL_PrivateAudioData) (chunk : Nat → Nat) : SDL_PrivateAudioData :=
  { pdata with mixbuf := chunk }

/-- Embedding of `LIBRETRO_PlayAudio`. -/
def LIBRETRO_PlayAudio (pdata : SDL_PrivateAudioData) : SDL_PrivateAudioData :=
  push_audio pdata

/-- Embedding of `libretro_upload_audio`. -/
def libretro_upload_audio {σ : Type} (cb : BatchCb σ) (pdata : SDL_PrivateAudioData) (w : σ) :
    SDL_PrivateAudioData × σ :=
  pop_audio cb pdata w

/-- The private data after the first `LIBRETRO_OpenAudio` on a device from
`LIBRETRO_CreateDevice` (which zeroes the whole struct): `mixlen` is the requested
size, `ringbuffer_size` is `mixlen*2`, cursors and occupancy are zero.  The
contents of the two allocations are arbitrary. -/
def opened (size : Nat) (mixbuf ringbuffer : Nat → Nat) : SDL_PrivateAudioData :=
  { mixbuf := mixbuf
    mixlen := size
    ringbuffer := ringbuffer
    ringbuffer_size := size * 2
    ringbuffer_writepos := 0
    ringbuffer_readpos := 0
    ringbuffer_used := 0 }

/-- One call into the driver: the mixer writes a chunk into `mixbuf` and
`LIBRETRO_PlayAudio` runs, or the frontend runs `libretro_upload_audio`. -/
inductive Call where
  | write (chunk : Nat → Nat)
  | drain

/-- Effect of one call on the private data and the sink. -/
def step {σ : Type} (cb : BatchCb σ) (c : Call) (x : SDL_PrivateAudioData × σ) :
    SDL_PrivateAudioData × σ :=
  match c with
  | Call.write chunk => (LIBRETRO_PlayAudio (fill_mixbuf x.1 chunk), x.2)
  | Call.drain => libretro_upload_audio cb x.1 x.2

/-- Effect of a sequence of calls, first call first. -/
def run {σ : Type} (cb : BatchCb σ) (cs : List Call) (x : SDL_PrivateAudioData × σ) :
    SDL_PrivateAudioData × σ :=
  cs.foldl (fun acc c => step cb c acc) x

/-- The `n` bytes of `mem` starting at byte offset `off`. -/
def bytes (mem : Nat → Nat) (off n : Nat) : List Nat :=
  (List.range n).map (fun i => mem (off + i))

/-- A sink that reports, per call, no more frames than it was offered. -/
def SinkBounded {σ : Type} (cb : BatchCb σ) : Prop :=
  ∀ w mem off frames, (cb w mem off frames).1 ≤ frames

/-- A sink that takes every frame it is offered. -/
def SinkTakesAll {σ : Type} (cb : BatchCb σ) : Prop :=
  ∀ w mem off frames, (cb w mem off frames).1 = frames

/-- A sink that takes every frame and appends the bytes it took to its state. -/
def sink_all : BatchCb (List Nat) :=
  fun w mem off frames => (frames, w ++ bytes mem off (4 * frames))

/-- The sink `cb` instrumented with a log of its calls: for each call the byte
offset of the data pointer and the frame count. -/
def logged {σ : Type} (cb : BatchCb σ) : BatchCb (σ × List (Nat × Nat)) :=
  fun w mem off frames =>
    ((cb w.1 mem off frames).1, ((cb w.1 mem off frames).2, w.2 ++ [(off, frames)]))

/-- The first `k` bytes of the unread content: `storage[(read_pos + i) mod C]`. -/
def fifo (pdata : SDL_PrivateAudioData) (k : Nat) : List Nat :=
  (List.range k).map
    (fun i => pdata.ringbuffer ((pdata.ringbuffer_readpos + i) % pdata.ringbuffer_size))

/-- The bytes behind a list of logged sink calls, in call order, 4 bytes per frame. -/
def offered_bytes (mem : Nat → Nat) (calls : List (Nat × Nat)) : List Nat :=
  (calls.map (fun c => bytes mem c.1 (4 * c.2))).flatten

/-- The quantity `first_run = min(used, C - read_pos)` of the spec, in bytes. -/
def first_run (pdata : SDL_PrivateAudioData) : Nat :=
  min pdata.ringbuffer_used (pdata.ringbuffer_size - pdata.ringbuffer_readpos)

/-- The quantity `second_run = used - first_run` of the spec, in bytes. -/
def second_run (pdata : SDL_PrivateAudioData) : Nat :=
  pdata.ringbuffer_used - first_run pdata

/-- A chunk whose bytes are `b, b+1, b+2, ...`. -/
def ramp (b : Nat) : Nat → Nat := fun i => b + i

/-- Memory holding zero everywhere. -/
def zeros : Nat → Nat := fun _ => 0

/-- The state reached with chunk size 6 (capacity 12) after a write, a drain into
`sink_all`, and two more writes. -/
def skew_state : SDL_PrivateAudioData :=
  (run sink_all [Call.write (ramp 10), Call.drain, Call.write (ramp 20), Call.write (ramp 30)]
    (opened 6 zeros zeros, [])).1

/-- The wrapped layout of the second example of the spec: capacity 8, chunk size 4,
write cursor 6, read cursor 2, 4 unread bytes, and the chunk `[65, 66, 67, 68]`
waiting in `mixbuf`. -/
def wrapped_state : SDL_PrivateAudioData :=
  { mixbuf := ramp 65
    mixlen := 4
    ringbuffer := ramp 50
    ringbuffer_size := 8
    ringbuffer_writepos := 6
    ringbuffer_readpos := 2
    ringbuffer_used := 4 }

/-- A sink that takes at most one frame per call and counts the frames it took. -/
def sink_one : BatchCb Nat :=
  fun w _ _ frames => (min frames 1, w + min frames 1)

/-- Chunk size 4 (capacity 8) after the writes `[1,2,3,4]` and `[5,6,7,8]`. -/
def full_state : SDL_PrivateAudioData :=
  (run sink_all [Call.write (ramp 1), Call.write (ramp 5)] (opened (4 * 1) zeros zeros, [])).1

/-- Chunk size 4 (capacity 8) after three writes in a row: the first chunk has been
dropped, both cursors are at 4 and the buffer is full. -/
def demo_state : SDL_PrivateAudioData :=
  (run sink_all [Call.write (ramp 1), Call.write (ramp 5), Call.write (ramp 9)]
    (opened (4 * 1) zeros zeros, [])).1

/-- Configuration and bounds of a buffer opened with chunk size `n`. -/
def Bounds (n : Nat) (s : SDL_PrivateAudioData) : Prop :=
  s.mixlen = n ∧ s.ringbuffer_size = n * 2 ∧
  s.ringbuffer_writepos < s.ringbuffer_size ∧
  s.ringbuffer_readpos < s.ringbuffer_size ∧
  s.ringbuffer_used ≤ s.ringbuffer_size

/-- Bounds, whole frames and cursor consistency of a buffer opened with chunk size `n`. -/
def Framed (n : Nat) (s : SDL_PrivateAudioData) : Prop :=
  Bounds n s ∧ n % 4 = 0 ∧ s.ringbuffer_readpos % 4 = 0 ∧ s.ringbuffer_used % 4 = 0 ∧
  (s.ringbuffer_readpos + s.ringbuffer_used) % s.ringbuffer_size = s.ringbuffer_writepos

/-- Bounds and cursor consistency of a buffer opened with chunk size `n`. -/
def Consistent (n : Nat) (s : SDL_PrivateAudioData) : Prop :=
  Bounds n s ∧
  (s.ringbuffer_readpos + s.ringbuffer_used) % s.ringbuffer_size = s.ringbuffer_writepos

/-- Bounds of a buffer opened with chunk size `n` whose write cursor is at the start
of one of the two halves of storage. -/
def OnHalf (n : Nat) (s : SDL_PrivateAudioData) : Prop :=
  Bounds n s ∧ (s.ringbuffer_writepos = 0 ∨ s.ringbuffer_writepos = n)

/-- The fields of `SDL_AudioSpec` read by `LIBRETRO_OpenAudio`. -/
structure SDL_AudioSpec where
  freq : Nat
  format : Nat
  channels : Nat
  silence : Nat
  size : Nat

/-- The whole of `this->hidden`: the ring buffer fields, whether each of the three
pointers `mixbuf`, `ringbuffer_lock` and `ringbuffer` is non-NULL, and the two
pacing fields.  The contents kept for a NULL buffer pointer carry no meaning. -/
structure Hidden where
  data : SDL_PrivateAudioData
  mixbuf_set : Bool
  ringbuffer_lock_set : Bool
  ringbuffer_set : Bool
  initial_calls : Nat
  write_delay : Nat

/-- What the calls made by `LIBRETRO_OpenAudio` return: the memory from
`SDL_AllocAudioMem` and from `SDL_malloc` (nothing for NULL), whether
`SDL_CreateMutex` gave a mutex, and the value of the floating point expression for
`write_delay` after its conversion to an integer. -/
structure OpenResults where
  SDL_AllocAudioMem : Option (Nat → Nat)
  SDL_CreateMutex : Bool
  SDL_malloc : Option (Nat → Nat)
  write_delay : Nat

/-- The C call `SDL_memset(dst, c, n)`: the resulting contents of `dst`. -/
def memset (dst : Nat → Nat) (c n : Nat) : Nat → Nat :=
  fun j => if j < n then c else dst j

/-- Embedding of `LIBRETRO_CreateDevice` (source lines 136-166), as far as
`this->hidden` goes: nothing when one of the two allocations fails, otherwise the
struct with every byte zero. -/
def LIBRETRO_CreateDevice (this_alloc hidden_alloc : Bool) : Option Hidden :=
  if this_alloc = false ∨ hidden_alloc = false then none
  else some
    { data :=
        { mixbuf := fun _ => 0
          mixlen := 0
          ringbuffer := fun _ => 0
          ringbuffer_size := 0
          ringbuffer_writepos := 0
          ringbuffer_readpos := 0
          ringbuffer_used := 0 }
      mixbuf_set := false
      ringbuffer_lock_set := false
      ringbuffer_set := false
      initial_calls := 0
      write_delay := 0 }

/-- Embedding of `LIBRETRO_OpenAudio` (source lines 213-245): the return value and
the private data afterwards. -/
def LIBRETRO_OpenAudio (this : Hidden) (spec : SDL_AudioSpec) (res : OpenResults) :
    Int × Hidden :=
  match res.SDL_AllocAudioMem with
  | none =>
    (-1, { this with
           data := { this.data with mixlen := spec.size }
           mixbuf_set := false })
  | some mixmem =>
    (0, { data :=
            { this.data with
              mixlen := spec.size
              mixbuf := memset mixmem spec.silence spec.size
              ringbuffer_size := spec.size * 2
              ringbuffer :=
                match res.SDL_malloc with
                | some mem => mem
                | none => this.data.ringbuffer }
          mixbuf_set := true
          ringbuffer_lock_set := res.SDL_CreateMutex
          ringbuffer_set := res.SDL_malloc.isSome
          initial_calls := 2
          write_delay := res.write_delay })

/-- Embedding of `LIBRETRO_CloseAudio` (source lines 193-211). -/
def LIBRETRO_CloseAudio (this : Hidden) : Hidden :=
  { this with
    mixbuf_set := if this.mixbuf_set then false else this.mixbuf_set
    ringbuffer_lock_set := if this.ringbuffer_lock_set then false else this.ringbuffer_lock_set
    ringbuffer_set := if this.ringbuffer_set then false else this.ringbuffer_set }

/-- The private data right after a successful `LIBRETRO_CreateDevice`. -/
def created : Hidden :=
  { data :=
      { mixbuf := fun _ => 0
        mixlen := 0
        ringbuffer := fun _ => 0
        ringbuffer_size := 0
        ringbuffer_writepos := 0
        ringbuffer_readpos := 0
        ringbuffer_used := 0 }
    mixbuf_set := false
    ringbuffer_lock_set := false
    ringbuffer_set := false
    initial_calls := 0
    write_delay := 0 }

/-- A request for 16-bit stereo at 44100 Hz with a chunk of `size` bytes. -/
def stereo_spec (size : Nat) : SDL_AudioSpec :=
  { freq := 44100, format := 0x8010, channels := 2, silence := 0, size := size }

/-- Every call made by `LIBRETRO_OpenAudio` succeeds; the memory handed out is zero. -/
def all_allocated : OpenResults :=
  { SDL_AllocAudioMem := some zeros
    SDL_CreateMutex := true
    SDL_malloc := some zeros
    write_delay := 0 }

/-- The mix buffer is allocated but `SDL_malloc` returns NULL for the ring buffer. -/
def ring_alloc_fails : OpenResults :=
  { SDL_AllocAudioMem := some zeros
    SDL_CreateMutex := true
    SDL_malloc := none
    write_delay := 0 }

/-- A first session on a new device: open with chunk size 8 (capacity 16), one
write, one drain into `sink_one` (which takes 1 of the 2 frames offered), close. -/
def closed_session : Hidden :=
  LIBRETRO_CloseAudio
    { (LIBRETRO_OpenAudio created (stereo_spec 8) all_allocated).2 with
      data :=
        (libretro_upload_audio sink_one
          (LIBRETRO_PlayAudio
            (fill_mixbuf (LIBRETRO_OpenAudio created (stereo_spec 8) all_allocated).2.data
              (ramp 1))) 0).1 }

/-- The sink `cb` instrumented with a record of the bytes it is handed: at each call
the `4 * frames` bytes read through the data pointer that the call received. -/
def handed {σ : Type} (cb : BatchCb σ) : BatchCb (σ × List Nat) :=
  fun w mem off frames =>
    ((cb w.1 mem off frames).1,
     ((cb w.1 mem off frames).2, w.2 ++ bytes mem off (4 * frames)))

/-- Embedding of `push_audio` with the side conditions of the C code made explicit:
there is a result only when the subtraction on line 60 does not wrap in `size_t`,
the `memcpy` on line 64 ends inside `ringbuffer`, the `memcpy` on line 65 ends
inside `ringbuffer`, and the modulus on lines 66 and 74 is not zero. -/
def push_audio_checked (pdata : SDL_PrivateAudioData) : Option SDL_PrivateAudioData :=
  let first_chunk :=
    if pdata.ringbuffer_writepos + pdata.mixlen > pdata.ringbuffer_size
    then pdata.ringbuffer_size - pdata.ringbuffer_writepos else pdata.mixlen
  let second_chunk :=
    if pdata.ringbuffer_writepos + pdata.mixlen > pdata.ringbuffer_size
    then pdata.mixlen - first_chunk else 0
  if (pdata.ringbuffer_writepos + pdata.mixlen > pdata.ringbuffer_size →
        pdata.ringbuffer_writepos ≤ pdata.ringbuffer_size)
      ∧ pdata.ringbuffer_writepos + first_chunk ≤ pdata.ringbuffer_size
      ∧ second_chunk ≤ pdata.ringbuffer_size
      ∧ 0 < pdata.ringbuffer_size
  then some (push_audio pdata) else none

/-- Capacity 8 and chunk size 4 with an empty buffer whose write cursor, 12, lies
beyond the capacity. -/
def stray_state : SDL_PrivateAudioData :=
  { mixbuf := ramp 1
    mixlen := 4
    ringbuffer := zeros
    ringbuffer_size := 8
    ringbuffer_writepos := 12
    ringbuffer_readpos := 0
    ringbuffer_used := 0 }

/-- Capacity 8 with an empty buffer at cursor 0 and a chunk of 20 bytes, longer than
the capacity. -/
def long_chunk_state : SDL_PrivateAudioData :=
  { mixbuf := ramp 1
    mixlen := 20
    ringbuffer := zeros
    ringbuffer_size := 8
    ringbuffer_writepos := 0
    ringbuffer_readpos := 0
    ringbuffer_used := 0 }

/-! ## Arithmetic helpers -/

theorem mod_wrap (x c : Nat) (h : x < c + c) :
    x % c = if x < c then x else x - c := by
  split
  · exact Nat.mod_eq_of_lt (by assumption)
  · rw [Nat.mod_eq_sub_mod (by omega)]
    exact Nat.mod_eq_of_lt (by omega)

/-! ## Field-wise description of fill_mixbuf and push_audio -/

theorem fill_mixbuf_mixbuf (s : SDL_PrivateAudioData) (c : Nat → Nat) :
    (fill_mixbuf s c).mixbuf = c := rfl

theorem fill_mixbuf_mixlen (s : SDL_PrivateAudioData) (c : Nat → Nat) :
    (fill_mixbuf s c).mixlen = s.mixlen := rfl

theorem fill_mixbuf_ringbuffer (s : SDL_PrivateAudioData) (c : Nat → Nat) :
    (fill_mixbuf s c).ringbuffer = s.ringbuffer := rfl

theorem fill_mixbuf_size (s : SDL_PrivateAudioData) (c : Nat → Nat) :
    (fill_mixbuf s c).ringbuffer_size = s.ringbuffer_size := rfl

theorem fill_mixbuf_writepos (s : SDL_PrivateAudioData) (c : Nat → Nat) :
    (fill_mixbuf s c).ringbuffer_writepos = s.ringbuffer_writepos := rfl

theorem fill_mixbuf_readpos (s : SDL_PrivateAudioData) (c : Nat → Nat) :
    (fill_mixbuf s c).ringbuffer_readpos = s.ringbuffer_readpos := rfl

theorem fill_mixbuf_used (s : SDL_PrivateAudioData) (c : Nat → Nat) :
    (fill_mixbuf s c).ringbuffer_used = s.ringbuffer_used := rfl

theorem push_audio_mixlen (s : SDL_PrivateAudioData) : (push_audio s).mixlen = s.mixlen := by
  unfold push_audio; simp only []; split <;> rfl

theorem push_audio_mixbuf (s : SDL_PrivateAudioData) : (push_audio s).mixbuf = s.mixbuf := by
  unfold push_audio; simp only []; split <;> rfl

theorem push_audio_size (s : SDL_PrivateAudioData) :
    (push_audio s).ringbuffer_size = s.ringbuffer_size := by
  unfold push_audio; simp only []; split <;> rfl

theorem push_audio_writepos (s : SDL_PrivateAudioData) :
    (push_audio s).ringbuffer_writepos =
      (s.ringbuffer_writepos + s.mixlen) % s.ringbuffer_size := by
  unfold push_audio; simp only []; split <;> rfl

theorem push_audio_used (s : SDL_PrivateAudioData) :
    (push_audio s).ringbuffer_used =
      if s.ringbuffer_used + s.mixlen > s.ringbuffer_size then s.ringbuffer_size
      else s.ringbuffer_used + s.mixlen := by
  unfold push_audio; simp only []; split <;> rfl

theorem push_audio_readpos (s : SDL_PrivateAudioData) :
    (push_audio s).ringbuffer_readpos =
      if s.ringbuffer_used + s.mixlen > s.ringbuffer_size then
        (s.ringbuffer_readpos + (s.ringbuffer_used + s.mixlen) - s.ringbuffer_size)
          % s.ringbuffer_size
      else s.ringbuffer_readpos := by
  unfold push_audio; simp only []; split <;> rfl

theorem push_audio_ringbuffer (s : SDL_PrivateAudioData) (j : Nat) :
    (push_audio s).ringbuffer j =
      if s.ringbuffer_writepos + s.mixlen > s.ringbuffer_size then
        (if j < s.mixlen - (s.ringbuffer_size - s.ringbuffer_writepos) then
           s.mixbuf (s.ringbuffer_size - s.ringbuffer_writepos + j)
         else if s.ringbuffer_writepos ≤ j ∧ j < s.ringbuffer_size then
           s.mixbuf (j - s.ringbuffer_writepos)
         else s.ringbuffer j)
      else
        (if s.ringbuffer_writepos ≤ j ∧ j < s.ringbuffer_writepos + s.mixlen then
           s.mixbuf (j - s.ringbuffer_writepos)
         else s.ringbuffer j) := by
  have hrb : (push_audio s).ringbuffer =
      memcpy (memcpy s.ringbuffer s.ringbuffer_writepos s.mixbuf 0
          (if s.ringbuffer_writepos + s.mixlen > s.ringbuffer_size
            then s.ringbuffer_size - s.ringbuffer_writepos else s.mixlen)) 0 s.mixbuf
        (if s.ringbuffer_writepos + s.mixlen > s.ringbuffer_size
            then s.ringbuffer_size - s.ringbuffer_writepos else s.mixlen)
        (if s.ringbuffer_writepos + s.mixlen > s.ringbuffer_size
          then s.mixlen - (if s.ringbuffer_writepos + s.mixlen > s.ringbuffer_size
            then s.ringbuffer_size - s.ringbuffer_writepos else s.mixlen) else 0) := by
    unfold push_audio; simp only []; split <;> rfl
  rw [hrb]
  unfold memcpy
  by_cases hw : s.ringbuffer_writepos + s.mixlen > s.ringbuffer_size
  · simp only [hw, if_true, Nat.zero_le, true_and, Nat.zero_add, Nat.sub_zero]
    by_cases h1 : j < s.mixlen - (s.ringbuffer_size - s.ringbuffer_writepos)
    · simp [h1]
    · simp only [h1, if_false]
      by_cases h2 : s.ringbuffer_writepos ≤ j ∧ j < s.ringbuffer_size
      · have h3 : s.ringbuffer_writepos ≤ j ∧
            j < s.ringbuffer_writepos + (s.ringbuffer_size - s.ringbuffer_writepos) := by omega
        simp [h2, h3]
      · have h3 : ¬ (s.ringbuffer_writepos ≤ j ∧
            j < s.ringbuffer_writepos + (s.ringbuffer_size - s.ringbuffer_writepos)) := by omega
        simp [h2, h3]
  · simp only [hw, if_false, Nat.zero_le, true_and, Nat.zero_add, Nat.not_lt_zero, Nat.add_zero]

/-- Byte i of the chunk lands at index (write_pos + i) mod C. -/
theorem push_audio_places (s : SDL_PrivateAudioData)
    (hw : s.ringbuffer_writepos < s.ringbuffer_size) (hm : s.mixlen ≤ s.ringbuffer_size) :
    ∀ i, i < s.mixlen →
      (push_audio s).ringbuffer ((s.ringbuffer_writepos + i) % s.ringbuffer_size)
        = s.mixbuf i := by
  intro i hi
  by_cases hlt : s.ringbuffer_writepos + i < s.ringbuffer_size
  · rw [Nat.mod_eq_of_lt hlt, push_audio_ringbuffer]
    have h1 : ¬ (s.ringbuffer_writepos + i <
        s.mixlen - (s.ringbuffer_size - s.ringbuffer_writepos)) := by omega
    have h2 : s.ringbuffer_writepos ≤ s.ringbuffer_writepos + i ∧
        s.ringbuffer_writepos + i < s.ringbuffer_size := by omega
    have h3 : s.ringbuffer_writepos ≤ s.ringbuffer_writepos + i ∧
        s.ringbuffer_writepos + i < s.ringbuffer_writepos + s.mixlen := by omega
    simp only [h1, h2, h3, if_true, if_false, and_self, Nat.add_sub_cancel_left, ite_self]
  · have hidx : (s.ringbuffer_writepos + i) % s.ringbuffer_size =
        s.ringbuffer_writepos + i - s.ringbuffer_size := by
      rw [mod_wrap _ _ (by omega), if_neg hlt]
    have hwrap : s.ringbuffer_writepos + s.mixlen > s.ringbuffer_size := by omega
    have h1 : s.ringbuffer_writepos + i - s.ringbuffer_size <
        s.mixlen - (s.ringbuffer_size - s.ringbuffer_writepos) := by omega
    have h4 : s.ringbuffer_size - s.ringbuffer_writepos +
        (s.ringbuffer_writepos + i - s.ringbuffer_size) = i := by omega
    rw [hidx, push_audio_ringbuffer]
    simp only [hwrap, h1, h4, if_true]

/-- Bytes outside the written positions keep their value. -/
theorem push_audio_keeps (s : SDL_PrivateAudioData)
    (hw : s.ringbuffer_writepos < s.ringbuffer_size) (hm : s.mixlen ≤ s.ringbuffer_size) :
    ∀ j, (∀ i, i < s.mixlen → j ≠ (s.ringbuffer_writepos + i) % s.ringbuffer_size) →
      (push_audio s).ringbuffer j = s.ringbuffer j := by
  intro j hj
  rw [push_audio_ringbuffer]
  by_cases hwrap : s.ringbuffer_writepos + s.mixlen > s.ringbuffer_size
  · simp only [hwrap, if_true]
    by_cases h1 : j < s.mixlen - (s.ringbuffer_size - s.ringbuffer_writepos)
    · exfalso
      apply hj (s.ringbuffer_size - s.ringbuffer_writepos + j) (by omega)
      rw [mod_wrap _ _ (by omega), if_neg (by omega)]
      omega
    · rw [if_neg h1]
      by_cases h2 : s.ringbuffer_writepos ≤ j ∧ j < s.ringbuffer_size
      · exfalso
        apply hj (j - s.ringbuffer_writepos) (by omega)
        rw [Nat.mod_eq_of_lt (by omega)]
        omega
      · rw [if_neg h2]
  · simp only [hwrap, if_false]
    by_cases h2 : s.ringbuffer_writepos ≤ j ∧ j < s.ringbuffer_writepos + s.mixlen
    · exfalso
      apply hj (j - s.ringbuffer_writepos) (by omega)
      rw [Nat.mod_eq_of_lt (by omega)]
      omega
    · rw [if_neg h2]

/-! ## Field-wise description of pop_audio -/

theorem pop_audio_fst {σ : Type} (cb : BatchCb σ) (s : SDL_PrivateAudioData) (w : σ) :
    (pop_audio cb s w).1 =
      { s with
        ringbuffer_readpos :=
          (s.ringbuffer_readpos + (pop_submit cb s w).1 * 4) % s.ringbuffer_size
        ringbuffer_used := s.ringbuffer_used - (pop_submit cb s w).1 * 4 } := rfl

theorem pop_audio_snd {σ : Type} (cb : BatchCb σ) (s : SDL_PrivateAudioData) (w : σ) :
    (pop_audio cb s w).2 = (pop_submit cb s w).2 := rfl

/-- Bytes behind the two runs never exceed the occupancy. -/
theorem pop_chunks_le (s : SDL_PrivateAudioData)
    (hr : s.ringbuffer_readpos < s.ringbuffer_size)
    (hu : s.ringbuffer_used ≤ s.ringbuffer_size) :
    s.ringbuffer_readpos + 4 * pop_first_chunk s ≤ s.ringbuffer_size ∧
    4 * pop_second_chunk s ≤ s.ringbuffer_readpos ∧
    4 * pop_first_chunk s + 4 * pop_second_chunk s ≤ s.ringbuffer_used := by
  unfold pop_first_chunk pop_second_chunk
  split <;> omega

/-- With a sink that reports no more than offered, `submitted` stays within the
frames of the two runs. -/
theorem pop_submit_le {σ : Type} (cb : BatchCb σ) (hcb : SinkBounded cb)
    (s : SDL_PrivateAudioData) (w : σ) :
    (pop_submit cb s w).1 ≤ pop_first_chunk s + pop_second_chunk s := by
  unfold pop_submit
  simp only []
  split
  · have h1 := hcb w s.ringbuffer s.ringbuffer_readpos (pop_first_chunk s)
    have h2 := hcb (cb w s.ringbuffer s.ringbuffer_readpos (pop_first_chunk s)).2
      s.ringbuffer 0 (pop_second_chunk s)
    simp only []
    omega
  · have h1 := hcb w s.ringbuffer s.ringbuffer_readpos (pop_first_chunk s)
    omega

theorem pop_submit_bytes_le {σ : Type} (cb : BatchCb σ) (hcb : SinkBounded cb)
    (s : SDL_PrivateAudioData) (w : σ)
    (hr : s.ringbuffer_readpos < s.ringbuffer_size)
    (hu : s.ringbuffer_used ≤ s.ringbuffer_size) :
    (pop_submit cb s w).1 * 4 ≤ s.ringbuffer_used := by
  have h1 := pop_submit_le cb hcb s w
  have h2 := pop_chunks_le s hr hu
  omega

/-- A sink that takes everything is reported as having taken both runs. -/
theorem pop_submit_all {σ : Type} (cb : BatchCb σ) (hcb : SinkTakesAll cb)
    (s : SDL_PrivateAudioData) (w : σ) :
    (pop_submit cb s w).1 = pop_first_chunk s + pop_second_chunk s := by
  unfold pop_submit
  simp only []
  split
  · simp only []
    rw [hcb, hcb]
  · rename_i h
    have h1 := hcb w s.ringbuffer s.ringbuffer_readpos (pop_first_chunk s)
    have : pop_second_chunk s = 0 := by
      by_contra h0
      exact h ⟨h1, Nat.pos_of_ne_zero h0⟩
    omega

/-- The calls seen by an instrumented sink. -/
theorem pop_submit_logged {σ : Type} (cb : BatchCb σ) (s : SDL_PrivateAudioData) (w : σ)
    (l : List (Nat × Nat)) :
    (pop_submit (logged cb) s (w, l)).2.2 =
      if (cb w s.ringbuffer s.ringbuffer_readpos (pop_first_chunk s)).1 = pop_first_chunk s
          ∧ pop_second_chunk s > 0
      then l ++ [(s.ringbuffer_readpos, pop_first_chunk s), (0, pop_second_chunk s)]
      else l ++ [(s.ringbuffer_readpos, pop_first_chunk s)] := by
  unfold pop_submit logged
  simp only []
  split <;> simp

/-- Instrumenting the sink changes neither `submitted` nor the state of the sink. -/
theorem pop_submit_logged_fst {σ : Type} (cb : BatchCb σ) (s : SDL_PrivateAudioData) (w : σ)
    (l : List (Nat × Nat)) :
    (pop_submit (logged cb) s (w, l)).1 = (pop_submit cb s w).1 ∧
    (pop_submit (logged cb) s (w, l)).2.1 = (pop_submit cb s w).2 := by
  unfold pop_submit logged
  simp only []
  split <;> simp

theorem pop_audio_logged {σ : Type} (cb : BatchCb σ) (s : SDL_PrivateAudioData) (w : σ)
    (l : List (Nat × Nat)) :
    (pop_audio (logged cb) s (w, l)).1 = (pop_audio cb s w).1 ∧
    (pop_audio (logged cb) s (w, l)).2.1 = (pop_audio cb s w).2 := by
  have h := pop_submit_logged_fst cb s w l
  simp only [pop_audio_fst, pop_audio_snd, h.1, h.2, and_self]

/-! ## The bounds invariant -/

theorem bounds_opened (n : Nat) (hn : 0 < n) (mixbuf ringbuffer : Nat → Nat) :
    Bounds n (opened n mixbuf ringbuffer) := by
  refine ⟨rfl, rfl, ?_, ?_, ?_⟩ <;> simp only [opened] <;> omega

theorem bounds_fill (n : Nat) (s : SDL_PrivateAudioData) (chunk : Nat → Nat)
    (h : Bounds n s) : Bounds n (fill_mixbuf s chunk) := h

theorem bounds_push (n : Nat) (s : SDL_PrivateAudioData) (h : Bounds n s) :
    Bounds n (push_audio s) := by
  obtain ⟨h1, h2, h3, h4, h5⟩ := h
  have hpos : 0 < s.ringbuffer_size := by omega
  refine ⟨?_, ?_, ?_, ?_, ?_⟩
  · rw [push_audio_mixlen]; exact h1
  · rw [push_audio_size]; exact h2
  · rw [push_audio_writepos, push_audio_size]; exact Nat.mod_lt _ hpos
  · rw [push_audio_readpos, push_audio_size]
    split
    · exact Nat.mod_lt _ hpos
    · exact h4
  · rw [push_audio_used, push_audio_size]
    split <;> omega

theorem bounds_pop {σ : Type} (cb : BatchCb σ) (hcb : SinkBounded cb) (n : Nat)
    (s : SDL_PrivateAudioData) (w : σ) (h : Bounds n s) : Bounds n (pop_audio cb s w).1 := by
  obtain ⟨h1, h2, h3, h4, h5⟩ := h
  have hpos : 0 < s.ringbuffer_size := by omega
  have hsub := pop_submit_bytes_le cb hcb s w h4 h5
  rw [pop_audio_fst]
  refine ⟨h1, h2, h3, ?_, ?_⟩
  · exact Nat.mod_lt _ hpos
  · simp only []
    omega

theorem bounds_step {σ : Type} (cb : BatchCb σ) (hcb : SinkBounded cb) (n : Nat)
    (c : Call) (x : SDL_PrivateAudioData × σ) (h : Bounds n x.1) :
    Bounds n (step cb c x).1 := by
  cases c with
  | write chunk => exact bounds_push n _ (bounds_fill n x.1 chunk h)
  | drain => exact bounds_pop cb hcb n x.1 x.2 h

theorem run_nil {σ : Type} (cb : BatchCb σ) (x : SDL_PrivateAudioData × σ) :
    run cb [] x = x := rfl

theorem run_cons {σ : Type} (cb : BatchCb σ) (c : Call) (cs : List Call)
    (x : SDL_PrivateAudioData × σ) : run cb (c :: cs) x = run cb cs (step cb c x) := rfl

theorem run_append {σ : Type} (cb : BatchCb σ) (cs ds : List Call)
    (x : SDL_PrivateAudioData × σ) : run cb (cs ++ ds) x = run cb ds (run cb cs x) := by
  unfold run; exact List.foldl_append _ _ _ _

theorem bounds_run {σ : Type} (cb : BatchCb σ) (hcb : SinkBounded cb) (n : Nat)
    (cs : List Call) (x : SDL_PrivateAudioData × σ) (h : Bounds n x.1) :
    Bounds n (run cb cs x).1 := by
  induction cs generalizing x with
  | nil => exact h
  | cons c cs ih => rw [run_cons]; exact ih _ (bounds_step cb hcb n c x h)

/-! ## Frame alignment and cursor consistency in reachable states -/

theorem framed_opened (n : Nat) (hn : 0 < n) (h4 : n % 4 = 0) (mixbuf ringbuffer : Nat → Nat) :
    Framed n (opened n mixbuf ringbuffer) := by
  refine ⟨bounds_opened n hn mixbuf ringbuffer, h4, rfl, rfl, ?_⟩
  simp only [opened, Nat.add_zero, Nat.zero_mod]

theorem framed_fill (n : Nat) (s : SDL_PrivateAudioData) (chunk : Nat → Nat)
    (h : Framed n s) : Framed n (fill_mixbuf s chunk) := h

theorem framed_push (n : Nat) (s : SDL_PrivateAudioData) (h : Framed n s) :
    Framed n (push_audio s) := by
  obtain ⟨hb, h4, hr4, hu4, hc⟩ := h
  have hb2 := bounds_push n s hb
  obtain ⟨h1, h2, h3, h5, h6⟩ := hb
  refine ⟨hb2, h4, ?_, ?_, ?_⟩
  · rw [push_audio_readpos]
    split
    · rw [mod_wrap _ s.ringbuffer_size (by omega)]
      split <;> omega
    · exact hr4
  · rw [push_audio_used]
    split <;> omega
  · rw [push_audio_readpos, push_audio_used, push_audio_writepos, push_audio_size]
    rw [mod_wrap _ _ (by omega)] at hc
    rw [mod_wrap (s.ringbuffer_writepos + s.mixlen) _ (by omega)]
    by_cases hov : s.ringbuffer_used + s.mixlen > s.ringbuffer_size
    · simp only [hov, if_true]
      rw [mod_wrap (s.ringbuffer_readpos + (s.ringbuffer_used + s.mixlen) - s.ringbuffer_size)
        _ (by omega)]
      rw [Nat.add_mod_right]
      have hlt : (if s.ringbuffer_readpos + (s.ringbuffer_used + s.mixlen) - s.ringbuffer_size
            < s.ringbuffer_size
          then s.ringbuffer_readpos + (s.ringbuffer_used + s.mixlen) - s.ringbuffer_size
          else s.ringbuffer_readpos + (s.ringbuffer_used + s.mixlen) - s.ringbuffer_size
            - s.ringbuffer_size) < s.ringbuffer_size := by
        split <;> omega
      rw [Nat.mod_eq_of_lt hlt]
      split_ifs at hc ⊢ <;> omega
    · simp only [hov, if_false]
      rw [mod_wrap _ _ (by omega)]
      split_ifs at hc ⊢ <;> omega

theorem framed_pop {σ : Type} (cb : BatchCb σ) (hcb : SinkBounded cb) (n : Nat)
    (s : SDL_PrivateAudioData) (w : σ) (h : Framed n s) : Framed n (pop_audio cb s w).1 := by
  obtain ⟨hb, h4, hr4, hu4, hc⟩ := h
  have hb2 := bounds_pop cb hcb n s w hb
  obtain ⟨h1, h2, h3, h5, h6⟩ := hb
  have hsub := pop_submit_bytes_le cb hcb s w h5 h6
  rw [pop_audio_fst] at hb2 ⊢
  refine ⟨hb2, h4, ?_, ?_, ?_⟩
  · simp only []
    rw [mod_wrap _ s.ringbuffer_size (by omega)]
    split <;> omega
  · simp only []
    omega
  · simp only []
    rw [Nat.mod_add_mod]
    rw [← hc]
    congr 1; omega

theorem framed_step {σ : Type} (cb : BatchCb σ) (hcb : SinkBounded cb) (n : Nat)
    (c : Call) (x : SDL_PrivateAudioData × σ) (h : Framed n x.1) :
    Framed n (step cb c x).1 := by
  cases c with
  | write chunk => exact framed_push n _ (framed_fill n x.1 chunk h)
  | drain => exact framed_pop cb hcb n x.1 x.2 h

theorem framed_run {σ : Type} (cb : BatchCb σ) (hcb : SinkBounded cb) (n : Nat)
    (cs : List Call) (x : SDL_PrivateAudioData × σ) (h : Framed n x.1) :
    Framed n (run cb cs x).1 := by
  induction cs generalizing x with
  | nil => exact h
  | cons c cs ih => rw [run_cons]; exact ih _ (framed_step cb hcb n c x h)

/-! ## Reading the ring in FIFO order -/

theorem bytes_length (mem : Nat → Nat) (off n : Nat) : (bytes mem off n).length = n := by
  unfold bytes; simp

/-- A run that ends at or before the end of storage is read without wrapping. -/
theorem fifo_eq_bytes (s : SDL_PrivateAudioData) (k : Nat)
    (h : s.ringbuffer_readpos + k ≤ s.ringbuffer_size) :
    fifo s k = bytes s.ringbuffer s.ringbuffer_readpos k := by
  unfold fifo bytes
  apply List.map_congr_left
  intro i hi
  rw [List.mem_range] at hi
  rw [Nat.mod_eq_of_lt (by omega)]

/-- A run that crosses the end of storage is the tail of storage followed by its head. -/
theorem fifo_eq_bytes_wrap (s : SDL_PrivateAudioData) (k : Nat)
    (hr : s.ringbuffer_readpos < s.ringbuffer_size)
    (hk : k ≤ s.ringbuffer_readpos) :
    fifo s (s.ringbuffer_size - s.ringbuffer_readpos + k) =
      bytes s.ringbuffer s.ringbuffer_readpos (s.ringbuffer_size - s.ringbuffer_readpos) ++
      bytes s.ringbuffer 0 k := by
  unfold fifo bytes
  rw [List.range_add, List.map_append, List.map_map]
  congr 1
  · apply List.map_congr_left
    intro i hi
    rw [List.mem_range] at hi
    rw [Nat.mod_eq_of_lt (by omega)]
  · apply List.map_congr_left
    intro i hi
    rw [List.mem_range] at hi
    simp only [Function.comp_apply, Nat.zero_add]
    rw [mod_wrap _ _ (by omega), if_neg (by omega)]
    congr 1; omega

theorem offered_bytes_one (mem : Nat → Nat) (a b : Nat) :
    offered_bytes mem [(a, b)] = bytes mem a (4 * b) := by
  simp [offered_bytes]

theorem offered_bytes_two (mem : Nat → Nat) (a b c d : Nat) :
    offered_bytes mem [(a, b), (c, d)] = bytes mem a (4 * b) ++ bytes mem c (4 * d) := by
  simp [offered_bytes]

/-- The calls of one drain, as seen by an instrumented sink starting from an empty log. -/
theorem pop_audio_calls {σ : Type} (cb : BatchCb σ) (s : SDL_PrivateAudioData) (w : σ) :
    (pop_audio (logged cb) s (w, [])).2.2 =
      if (cb w s.ringbuffer s.ringbuffer_readpos (pop_first_chunk s)).1 = pop_first_chunk s
          ∧ pop_second_chunk s > 0
      then [(s.ringbuffer_readpos, pop_first_chunk s), (0, pop_second_chunk s)]
      else [(s.ringbuffer_readpos, pop_first_chunk s)] := by
  rw [pop_audio_snd, pop_submit_logged]
  rfl

/-- Whatever the sink reports, the bytes a drain offers are leading bytes of the
unread content, provided a run that reaches the end of storage is whole frames. -/
theorem pop_offered_is_fifo {σ : Type} (cb : BatchCb σ) (s : SDL_PrivateAudioData) (w : σ)
    (hr : s.ringbuffer_readpos < s.ringbuffer_size)
    (hu : s.ringbuffer_used ≤ s.ringbuffer_size)
    (hal : s.ringbuffer_readpos + s.ringbuffer_used > s.ringbuffer_size →
      (s.ringbuffer_size - s.ringbuffer_readpos) % 4 = 0) :
    offered_bytes s.ringbuffer (pop_audio (logged cb) s (w, [])).2.2 =
      fifo s (offered_bytes s.ringbuffer (pop_audio (logged cb) s (w, [])).2.2).length ∧
    (offered_bytes s.ringbuffer (pop_audio (logged cb) s (w, [])).2.2).length
      ≤ s.ringbuffer_used := by
  have hle := pop_chunks_le s hr hu
  rw [pop_audio_calls]
  split
  · rename_i h
    have hwrap : s.ringbuffer_readpos + s.ringbuffer_used > s.ringbuffer_size := by
      by_contra hn
      have : pop_second_chunk s = 0 := by
        unfold pop_second_chunk; rw [if_neg hn]
      omega
    have hf : 4 * pop_first_chunk s = s.ringbuffer_size - s.ringbuffer_readpos := by
      have := hal hwrap
      unfold pop_first_chunk; rw [if_pos hwrap]; omega
    rw [offered_bytes_two, List.length_append, bytes_length, bytes_length, hf]
    exact ⟨(fifo_eq_bytes_wrap s _ hr (by omega)).symm, by omega⟩
  · rw [offered_bytes_one, bytes_length]
    exact ⟨(fifo_eq_bytes s _ (by omega)).symm, by omega⟩

/-- A drain into a sink that takes everything, from a state whose two runs are whole
frames: the calls made, the bytes offered, and the state afterwards. -/
theorem pop_all_framed {σ : Type} (cb : BatchCb σ) (hall : SinkTakesAll cb)
    (s : SDL_PrivateAudioData) (w : σ)
    (hr : s.ringbuffer_readpos < s.ringbuffer_size)
    (hu : s.ringbuffer_used ≤ s.ringbuffer_size)
    (h1 : min s.ringbuffer_used (s.ringbuffer_size - s.ringbuffer_readpos) % 4 = 0)
    (h2 : (s.ringbuffer_used
      - min s.ringbuffer_used (s.ringbuffer_size - s.ringbuffer_readpos)) % 4 = 0) :
    4 * pop_first_chunk s = min s.ringbuffer_used (s.ringbuffer_size - s.ringbuffer_readpos) ∧
    4 * pop_second_chunk s =
      s.ringbuffer_used - min s.ringbuffer_used (s.ringbuffer_size - s.ringbuffer_readpos) ∧
    (pop_audio (logged cb) s (w, [])).2.2 =
      (if pop_second_chunk s > 0
       then [(s.ringbuffer_readpos, pop_first_chunk s), (0, pop_second_chunk s)]
       else [(s.ringbuffer_readpos, pop_first_chunk s)]) ∧
    offered_bytes s.ringbuffer (pop_audio (logged cb) s (w, [])).2.2 = fifo s s.ringbuffer_used ∧
    (pop_audio cb s w).1.ringbuffer_used = 0 ∧
    (pop_audio cb s w).1.ringbuffer_readpos =
      (s.ringbuffer_readpos + s.ringbuffer_used) % s.ringbuffer_size := by
  have hf : 4 * pop_first_chunk s =
      min s.ringbuffer_used (s.ringbuffer_size - s.ringbuffer_readpos) := by
    unfold pop_first_chunk; split <;> omega
  have hs : 4 * pop_second_chunk s =
      s.ringbuffer_used - min s.ringbuffer_used (s.ringbuffer_size - s.ringbuffer_readpos) := by
    unfold pop_second_chunk; split <;> omega
  have hsub := pop_submit_all cb hall s w
  have hcalls : (pop_audio (logged cb) s (w, [])).2.2 =
      (if pop_second_chunk s > 0
       then [(s.ringbuffer_readpos, pop_first_chunk s), (0, pop_second_chunk s)]
       else [(s.ringbuffer_readpos, pop_first_chunk s)]) := by
    rw [pop_audio_calls]
    have e := hall w s.ringbuffer s.ringbuffer_readpos (pop_first_chunk s)
    simp only [e, true_and]
  have hal : s.ringbuffer_readpos + s.ringbuffer_used > s.ringbuffer_size →
      (s.ringbuffer_size - s.ringbuffer_readpos) % 4 = 0 := by
    intro hw; omega
  have hoff := (pop_offered_is_fifo cb s w hr hu hal).1
  have hlen : (offered_bytes s.ringbuffer (pop_audio (logged cb) s (w, [])).2.2).length
      = s.ringbuffer_used := by
    rw [hcalls]
    split
    · rw [offered_bytes_two, List.length_append, bytes_length, bytes_length]; omega
    · rw [offered_bytes_one, bytes_length]; omega
  rw [hlen] at hoff
  refine ⟨hf, hs, hcalls, hoff, ?_, ?_⟩
  · rw [pop_audio_fst, hsub]
    simp only []
    omega
  · rw [pop_audio_fst, hsub]
    simp only []
    congr 1; omega

/-- In a framed state both runs of a drain are whole frames. -/
theorem framed_runs (n : Nat) (s : SDL_PrivateAudioData) (h : Framed n s) :
    s.ringbuffer_readpos < s.ringbuffer_size ∧ s.ringbuffer_used ≤ s.ringbuffer_size ∧
    min s.ringbuffer_used (s.ringbuffer_size - s.ringbuffer_readpos) % 4 = 0 ∧
    (s.ringbuffer_used
      - min s.ringbuffer_used (s.ringbuffer_size - s.ringbuffer_readpos)) % 4 = 0 := by
  obtain ⟨⟨_, h2, _, h4, h5⟩, h6, h7, h8, _⟩ := h
  refine ⟨h4, h5, ?_, ?_⟩ <;> omega

/-! ## The unread content after writes -/

/-- When the buffer is empty or full the two cursors coincide. -/
theorem framed_readpos_eq (n : Nat) (s : SDL_PrivateAudioData) (h : Framed n s)
    (hu : s.ringbuffer_used = 0 ∨ s.ringbuffer_used = s.ringbuffer_size) :
    s.ringbuffer_readpos = s.ringbuffer_writepos := by
  obtain ⟨⟨_, _, _, h4, _⟩, _, _, _, hc⟩ := h
  rcases hu with hu | hu
  · rw [hu, Nat.add_zero, Nat.mod_eq_of_lt h4] at hc; exact hc
  · rw [hu, Nat.add_mod_right, Nat.mod_eq_of_lt h4] at hc; exact hc

/-- One write into an empty buffer: the unread content is the chunk. -/
theorem fifo_after_one_push (n : Nat) (s : SDL_PrivateAudioData)
    (h : Framed n s) (hu : s.ringbuffer_used = 0) :
    (push_audio s).ringbuffer_used = n ∧
    fifo (push_audio s) n = bytes s.mixbuf 0 n := by
  have hrw := framed_readpos_eq n s h (Or.inl hu)
  obtain ⟨⟨h1, h2, h3, h4, h5⟩, _, _, _, _⟩ := h
  have hused : (push_audio s).ringbuffer_used = n := by
    rw [push_audio_used, if_neg (by omega)]; omega
  refine ⟨hused, ?_⟩
  unfold fifo bytes
  apply List.map_congr_left
  intro i hi
  rw [List.mem_range] at hi
  rw [push_audio_readpos, push_audio_size, if_neg (by omega), hrw,
    push_audio_places s h3 (by omega) i (by omega), Nat.zero_add]

/-- Two writes in a row from any reachable state: the buffer is full and its unread
content is the two chunks, the earlier one first. -/
theorem fifo_after_two_pushes (n : Nat) (s : SDL_PrivateAudioData) (b : Nat → Nat)
    (h : Framed n s) :
    (push_audio (fill_mixbuf (push_audio s) b)).ringbuffer_used = n + n ∧
    fifo (push_audio (fill_mixbuf (push_audio s) b)) (n + n)
      = bytes s.mixbuf 0 n ++ bytes b 0 n := by
  have hf1 := framed_push n s h
  have hf2 := framed_push n _ (framed_fill n (push_audio s) b hf1)
  obtain ⟨⟨h1, h2, h3, h4, h5⟩, _, _, _, _⟩ := h
  obtain ⟨k1, k2, k3, k4, k5⟩ := hf1.1
  rw [push_audio_size] at k2 k3 k4 k5
  have hw1 : (push_audio s).ringbuffer_writepos =
      (s.ringbuffer_writepos + n) % s.ringbuffer_size := by
    rw [push_audio_writepos, h1]
  have hu1 : n ≤ (push_audio s).ringbuffer_used := by
    rw [push_audio_used]; split <;> omega
  have hs2 : (push_audio (fill_mixbuf (push_audio s) b)).ringbuffer_size
      = s.ringbuffer_size := by
    rw [push_audio_size, fill_mixbuf_size, push_audio_size]
  have hused : (push_audio (fill_mixbuf (push_audio s) b)).ringbuffer_used = n + n := by
    rw [push_audio_used, fill_mixbuf_used, fill_mixbuf_mixlen, fill_mixbuf_size,
      push_audio_size, k1]
    split <;> omega
  have hw2 : (push_audio (fill_mixbuf (push_audio s) b)).ringbuffer_writepos
      = s.ringbuffer_writepos := by
    rw [push_audio_writepos, fill_mixbuf_writepos, fill_mixbuf_mixlen, fill_mixbuf_size,
      push_audio_size, hw1, k1, Nat.mod_add_mod, Nat.add_assoc, h2, ← Nat.mul_two,
      Nat.add_mod_right]
    exact Nat.mod_eq_of_lt (by omega)
  have hr2 := framed_readpos_eq n _ hf2 (Or.inr (by rw [hused, hs2]; omega))
  have hplace_b := push_audio_places (fill_mixbuf (push_audio s) b)
    (by rw [fill_mixbuf_writepos, fill_mixbuf_size, push_audio_size]; exact k3)
    (by rw [fill_mixbuf_mixlen, fill_mixbuf_size, push_audio_size]; omega)
  have hkeep_b := push_audio_keeps (fill_mixbuf (push_audio s) b)
    (by rw [fill_mixbuf_writepos, fill_mixbuf_size, push_audio_size]; exact k3)
    (by rw [fill_mixbuf_mixlen, fill_mixbuf_size, push_audio_size]; omega)
  have hplace_a := push_audio_places s h3 (by omega)
  simp only [fill_mixbuf_writepos, fill_mixbuf_mixlen, fill_mixbuf_size, fill_mixbuf_mixbuf,
    fill_mixbuf_ringbuffer, push_audio_size, hw1, k1, h1] at hplace_b hkeep_b hplace_a
  refine ⟨hused, ?_⟩
  unfold fifo bytes
  rw [List.range_add, List.map_append, List.map_map, hr2, hw2, hs2]
  congr 1
  · apply List.map_congr_left
    intro i hi
    rw [List.mem_range] at hi
    rw [Nat.zero_add, hkeep_b, hplace_a i hi]
    intro j hj
    rw [Nat.mod_add_mod, mod_wrap (s.ringbuffer_writepos + i) _ (by omega),
      mod_wrap (s.ringbuffer_writepos + n + j) _ (by omega)]
    split <;> split <;> omega
  · apply List.map_congr_left
    intro i hi
    rw [List.mem_range] at hi
    simp only [Function.comp_apply, Nat.zero_add]
    have := hplace_b i hi
    rw [Nat.mod_add_mod] at this
    rw [← Nat.add_assoc, this]

theorem sink_all_bounded : SinkBounded sink_all := fun _ _ _ _ => Nat.le_refl _

theorem sink_all_takes_all : SinkTakesAll sink_all := fun _ _ _ _ => rfl

theorem consistent_opened (n : Nat) (hn : 0 < n) (mixbuf ringbuffer : Nat → Nat) :
    Consistent n (opened n mixbuf ringbuffer) := by
  refine ⟨bounds_opened n hn mixbuf ringbuffer, ?_⟩
  simp only [opened, Nat.add_zero, Nat.zero_mod]

theorem consistent_fill (n : Nat) (s : SDL_PrivateAudioData) (chunk : Nat → Nat)
    (h : Consistent n s) : Consistent n (fill_mixbuf s chunk) := h

theorem consistent_push (n : Nat) (s : SDL_PrivateAudioData) (h : Consistent n s) :
    Consistent n (push_audio s) := by
  obtain ⟨hb, hc⟩ := h
  have hb2 := bounds_push n s hb
  obtain ⟨h1, h2, h3, h5, h6⟩ := hb
  refine ⟨hb2, ?_⟩
  rw [push_audio_readpos, push_audio_used, push_audio_writepos, push_audio_size]
  rw [mod_wrap _ _ (by omega)] at hc
  rw [mod_wrap (s.ringbuffer_writepos + s.mixlen) _ (by omega)]
  by_cases hov : s.ringbuffer_used + s.mixlen > s.ringbuffer_size
  · simp only [hov, if_true]
    rw [mod_wrap (s.ringbuffer_readpos + (s.ringbuffer_used + s.mixlen) - s.ringbuffer_size)
      _ (by omega)]
    rw [Nat.add_mod_right]
    have hlt : (if s.ringbuffer_readpos + (s.ringbuffer_used + s.mixlen) - s.ringbuffer_size
          < s.ringbuffer_size
        then s.ringbuffer_readpos + (s.ringbuffer_used + s.mixlen) - s.ringbuffer_size
        else s.ringbuffer_readpos + (s.ringbuffer_used + s.mixlen) - s.ringbuffer_size
          - s.ringbuffer_size) < s.ringbuffer_size := by
      split <;> omega
    rw [Nat.mod_eq_of_lt hlt]
    split_ifs at hc ⊢ <;> omega
  · simp only [hov, if_false]
    rw [mod_wrap _ _ (by omega)]
    split_ifs at hc ⊢ <;> omega

theorem consistent_pop {σ : Type} (cb : BatchCb σ) (hcb : SinkBounded cb) (n : Nat)
    (s : SDL_PrivateAudioData) (w : σ) (h : Consistent n s) :
    Consistent n (pop_audio cb s w).1 := by
  obtain ⟨hb, hc⟩ := h
  have hb2 := bounds_pop cb hcb n s w hb
  obtain ⟨h1, h2, h3, h5, h6⟩ := hb
  have hsub := pop_submit_bytes_le cb hcb s w h5 h6
  rw [pop_audio_fst] at hb2 ⊢
  refine ⟨hb2, ?_⟩
  simp only []
  rw [Nat.mod_add_mod, ← hc]
  congr 1; omega

theorem consistent_step {σ : Type} (cb : BatchCb σ) (hcb : SinkBounded cb) (n : Nat)
    (c : Call) (x : SDL_PrivateAudioData × σ) (h : Consistent n x.1) :
    Consistent n (step cb c x).1 := by
  cases c with
  | write chunk => exact consistent_push n _ (consistent_fill n x.1 chunk h)
  | drain => exact consistent_pop cb hcb n x.1 x.2 h

theorem consistent_run {σ : Type} (cb : BatchCb σ) (hcb : SinkBounded cb) (n : Nat)
    (cs : List Call) (x : SDL_PrivateAudioData × σ) (h : Consistent n x.1) :
    Consistent n (run cb cs x).1 := by
  induction cs generalizing x with
  | nil => exact h
  | cons c cs ih => rw [run_cons]; exact ih _ (consistent_step cb hcb n c x h)

theorem onhalf_opened (n : Nat) (hn : 0 < n) (mixbuf ringbuffer : Nat → Nat) :
    OnHalf n (opened n mixbuf ringbuffer) :=
  ⟨bounds_opened n hn mixbuf ringbuffer, Or.inl rfl⟩

theorem onhalf_fill (n : Nat) (s : SDL_PrivateAudioData) (chunk : Nat → Nat)
    (h : OnHalf n s) : OnHalf n (fill_mixbuf s chunk) := h

theorem onhalf_push (n : Nat) (s : SDL_PrivateAudioData) (h : OnHalf n s) :
    OnHalf n (push_audio s) := by
  obtain ⟨hb, hw⟩ := h
  have hb2 := bounds_push n s hb
  obtain ⟨h1, h2, h3, h5, h6⟩ := hb
  refine ⟨hb2, ?_⟩
  rw [push_audio_writepos, mod_wrap _ _ (by omega)]
  split <;> omega

theorem onhalf_pop {σ : Type} (cb : BatchCb σ) (hcb : SinkBounded cb) (n : Nat)
    (s : SDL_PrivateAudioData) (w : σ) (h : OnHalf n s) : OnHalf n (pop_audio cb s w).1 :=
  ⟨bounds_pop cb hcb n s w h.1, h.2⟩

theorem onhalf_step {σ : Type} (cb : BatchCb σ) (hcb : SinkBounded cb) (n : Nat)
    (c : Call) (x : SDL_PrivateAudioData × σ) (h : OnHalf n x.1) :
    OnHalf n (step cb c x).1 := by
  cases c with
  | write chunk => exact onhalf_push n _ (onhalf_fill n x.1 chunk h)
  | drain => exact onhalf_pop cb hcb n x.1 x.2 h

theorem onhalf_run {σ : Type} (cb : BatchCb σ) (hcb : SinkBounded cb) (n : Nat)
    (cs : List Call) (x : SDL_PrivateAudioData × σ) (h : OnHalf n x.1) :
    OnHalf n (run cb cs x).1 := by
  induction cs generalizing x with
  | nil => exact h
  | cons c cs ih => rw [run_cons]; exact ih _ (onhalf_step cb hcb n c x h)

/-! ## Opening and closing the device -/

theorem create_device_eq (x y : Bool) (this : Hidden)
    (h : LIBRETRO_CreateDevice x y = some this) : this = created := by
  unfold LIBRETRO_CreateDevice at h
  split at h
  · exact absurd h (by simp)
  · exact (Option.some.inj h).symm

/-- A successful open has the mix buffer allocated. -/
theorem open_audio_ok (this : Hidden) (spec : SDL_AudioSpec) (res : OpenResults)
    (h : (LIBRETRO_OpenAudio this spec res).1 = 0) :
    ∃ mixmem, res.SDL_AllocAudioMem = some mixmem := by
  unfold LIBRETRO_OpenAudio at h
  cases hm : res.SDL_AllocAudioMem with
  | none =>
    rw [hm] at h
    have h2 : (-1 : Int) = 0 := h
    exact absurd h2 (by decide)
  | some m => exact ⟨m, rfl⟩

/-- The ring buffer fields after an open whose mix buffer allocation succeeded. -/
theorem open_audio_data (this : Hidden) (spec : SDL_AudioSpec) (res : OpenResults)
    (mixmem : Nat → Nat) (h : res.SDL_AllocAudioMem = some mixmem) :
    (LIBRETRO_OpenAudio this spec res).1 = 0 ∧
    (LIBRETRO_OpenAudio this spec res).2.data.mixlen = spec.size ∧
    (LIBRETRO_OpenAudio this spec res).2.data.ringbuffer_size = spec.size * 2 ∧
    (LIBRETRO_OpenAudio this spec res).2.data.ringbuffer_writepos
      = this.data.ringbuffer_writepos ∧
    (LIBRETRO_OpenAudio this spec res).2.data.ringbuffer_readpos
      = this.data.ringbuffer_readpos ∧
    (LIBRETRO_OpenAudio this spec res).2.data.ringbuffer_used = this.data.ringbuffer_used ∧
    (LIBRETRO_OpenAudio this spec res).2.ringbuffer_set = res.SDL_malloc.isSome := by
  unfold LIBRETRO_OpenAudio
  rw [h]
  exact ⟨rfl, rfl, rfl, rfl, rfl, rfl, rfl⟩

/-- The first open on a new device gives the state `opened`. -/
theorem open_created (spec : SDL_AudioSpec) (res : OpenResults)
    (mixmem : Nat → Nat) (h : res.SDL_AllocAudioMem = some mixmem) :
    (LIBRETRO_OpenAudio created spec res).2.data =
      opened spec.size (memset mixmem spec.silence spec.size)
        (match res.SDL_malloc with
         | some mem => mem
         | none => fun _ => 0) := by
  unfold LIBRETRO_OpenAudio
  rw [h]
  rfl

/-- Two writes into the freshly opened buffer: no overflow correction, the buffer is
full from index 0 and its unread content is the two chunks in write order. -/
theorem two_pushes_from_opened (n : Nat) (hn : 0 < n) (mixbuf ringbuffer a b : Nat → Nat) :
    (push_audio (fill_mixbuf (push_audio (fill_mixbuf (opened n mixbuf ringbuffer) a)) b)
      ).ringbuffer_size = n * 2 ∧
    (push_audio (fill_mixbuf (push_audio (fill_mixbuf (opened n mixbuf ringbuffer) a)) b)
      ).ringbuffer_used = n * 2 ∧
    (push_audio (fill_mixbuf (push_audio (fill_mixbuf (opened n mixbuf ringbuffer) a)) b)
      ).ringbuffer_readpos = 0 ∧
    fifo (push_audio (fill_mixbuf (push_audio (fill_mixbuf (opened n mixbuf ringbuffer) a)) b))
      (n + n) = bytes a 0 n ++ bytes b 0 n := by
  have hb0 : Bounds n (fill_mixbuf (opened n mixbuf ringbuffer) a) :=
    bounds_opened n hn mixbuf ringbuffer
  have hb1 := bounds_push n _ hb0
  obtain ⟨k1, k2, k3, k4, k5⟩ := hb1
  have hw1 : (push_audio (fill_mixbuf (opened n mixbuf ringbuffer) a)).ringbuffer_writepos
      = n := by
    rw [push_audio_writepos]
    show (0 + n) % (n * 2) = n
    rw [Nat.zero_add]
    exact Nat.mod_eq_of_lt (by omega)
  have hu1 : (push_audio (fill_mixbuf (opened n mixbuf ringbuffer) a)).ringbuffer_used
      = n := by
    rw [push_audio_used]
    show (if 0 + n > n * 2 then n * 2 else 0 + n) = n
    rw [if_neg (by omega)]; omega
  have hr1 : (push_audio (fill_mixbuf (opened n mixbuf ringbuffer) a)).ringbuffer_readpos
      = 0 := by
    rw [push_audio_readpos]
    show (if 0 + n > n * 2 then _ else 0) = 0
    rw [if_neg (by omega)]
  have hs2 : (push_audio (fill_mixbuf (push_audio (fill_mixbuf (opened n mixbuf ringbuffer) a))
      b)).ringbuffer_size = n * 2 := by
    rw [push_audio_size, fill_mixbuf_size, k2]
  have hu2 : (push_audio (fill_mixbuf (push_audio (fill_mixbuf (opened n mixbuf ringbuffer) a))
      b)).ringbuffer_used = n * 2 := by
    rw [push_audio_used, fill_mixbuf_used, fill_mixbuf_mixlen, fill_mixbuf_size, hu1, k1, k2,
      if_neg (by omega)]
    omega
  have hr2 : (push_audio (fill_mixbuf (push_audio (fill_mixbuf (opened n mixbuf ringbuffer) a))
      b)).ringbuffer_readpos = 0 := by
    rw [push_audio_readpos, fill_mixbuf_used, fill_mixbuf_mixlen, fill_mixbuf_size,
      fill_mixbuf_readpos, hu1, k1, k2, if_neg (by omega), hr1]
  have hplace_a : ∀ i, i < n →
      (push_audio (fill_mixbuf (opened n mixbuf ringbuffer) a)).ringbuffer i = a i := by
    intro i hi
    have h := push_audio_places (fill_mixbuf (opened n mixbuf ringbuffer) a)
      hb0.2.2.1 (by rw [hb0.1, hb0.2.1]; omega) i (by rw [hb0.1]; exact hi)
    have e : ((fill_mixbuf (opened n mixbuf ringbuffer) a).ringbuffer_writepos + i)
        % (fill_mixbuf (opened n mixbuf ringbuffer) a).ringbuffer_size = i := by
      show (0 + i) % (n * 2) = i
      rw [Nat.zero_add]
      exact Nat.mod_eq_of_lt (by omega)
    rw [e] at h
    exact h
  have hplace_b : ∀ i, i < n →
      (push_audio (fill_mixbuf (push_audio (fill_mixbuf (opened n mixbuf ringbuffer) a)) b)
        ).ringbuffer (n + i) = b i := by
    intro i hi
    have h := push_audio_places
      (fill_mixbuf (push_audio (fill_mixbuf (opened n mixbuf ringbuffer) a)) b)
      (by rw [fill_mixbuf_writepos, fill_mixbuf_size]; exact k3)
      (by rw [fill_mixbuf_mixlen, fill_mixbuf_size, k1, k2]; omega) i
      (by rw [fill_mixbuf_mixlen, k1]; exact hi)
    rw [fill_mixbuf_writepos, fill_mixbuf_size, fill_mixbuf_mixbuf, hw1, k2,
      Nat.mod_eq_of_lt (by omega)] at h
    exact h
  have hkeep_b : ∀ j, j < n →
      (push_audio (fill_mixbuf (push_audio (fill_mixbuf (opened n mixbuf ringbuffer) a)) b)
        ).ringbuffer j
      = (push_audio (fill_mixbuf (opened n mixbuf ringbuffer) a)).ringbuffer j := by
    intro j hj
    have h := push_audio_keeps
      (fill_mixbuf (push_audio (fill_mixbuf (opened n mixbuf ringbuffer) a)) b)
      (by rw [fill_mixbuf_writepos, fill_mixbuf_size]; exact k3)
      (by rw [fill_mixbuf_mixlen, fill_mixbuf_size, k1, k2]; omega) j
      (by
        intro i hi
        rw [fill_mixbuf_mixlen, k1] at hi
        rw [fill_mixbuf_writepos, fill_mixbuf_size, hw1, k2, Nat.mod_eq_of_lt (by omega)]
        omega)
    rw [fill_mixbuf_ringbuffer] at h
    exact h
  refine ⟨hs2, hu2, hr2, ?_⟩
  unfold fifo bytes
  rw [List.range_add, List.map_append, List.map_map, hr2, hs2]
  congr 1
  · apply List.map_congr_left
    intro i hi
    rw [List.mem_range] at hi
    rw [Nat.zero_add, Nat.mod_eq_of_lt (by omega), hkeep_b i hi, hplace_a i hi]
  · apply List.map_congr_left
    intro i hi
    rw [List.mem_range] at hi
    simp only [Function.comp_apply, Nat.zero_add]
    rw [Nat.mod_eq_of_lt (by omega), hplace_b i hi]

/-! ## The bytes handed to the sink -/

/-- The bytes handed to the instrumented sink in one drain are read from the ring
buffer at the logged offsets. -/
theorem pop_audio_handed {σ : Type} (cb : BatchCb σ) (s : SDL_PrivateAudioData) (w : σ) :
    (pop_audio (handed cb) s (w, [])).2.2 =
      offered_bytes s.ringbuffer (pop_audio (logged cb) s (w, [])).2.2 := by
  rw [pop_audio_calls, pop_audio_snd]
  unfold pop_submit handed
  simp only []
  split
  · rw [offered_bytes_two]
    simp only [List.nil_append]
  · rw [offered_bytes_one]
    simp only [List.nil_append]

/-- Instrumenting the sink with `handed` changes neither the state after the drain
nor the state of the sink. -/
theorem pop_audio_handed_fst {σ : Type} (cb : BatchCb σ) (s : SDL_PrivateAudioData) (w : σ)
    (l : List Nat) :
    (pop_audio (handed cb) s (w, l)).1 = (pop_audio cb s w).1 ∧
    (pop_audio (handed cb) s (w, l)).2.1 = (pop_audio cb s w).2 := by
  have h : (pop_submit (handed cb) s (w, l)).1 = (pop_submit cb s w).1 ∧
      (pop_submit (handed cb) s (w, l)).2.1 = (pop_submit cb s w).2 := by
    unfold pop_submit handed
    simp only []
    split <;> simp
  simp only [pop_audio_fst, pop_audio_snd, h.1, h.2, and_self]

/-- The bytes `sink_all` records are the bytes it was handed. -/
theorem pop_audio_sink_all (s : SDL_PrivateAudioData) :
    (pop_audio sink_all s []).2 = (pop_audio (handed sink_all) s ([], [])).2.2 := by
  rw [pop_audio_snd, pop_audio_snd]
  unfold pop_submit handed sink_all
  simp only []
  split <;> simp

/-! ## The unread content against the bytes written -/

/-- A write whose cursor is below the capacity and whose chunk is no longer than the
capacity meets the side conditions of the C code. -/
theorem push_audio_checked_some (s : SDL_PrivateAudioData)
    (hw : s.ringbuffer_writepos < s.ringbuffer_size) (hm : s.mixlen ≤ s.ringbuffer_size) :
    push_audio_checked s = some (push_audio s) := by
  unfold push_audio_checked
  simp only []
  rw [if_pos]
  refine ⟨by intro _; omega, ?_, ?_, by omega⟩
  · split <;> omega
  · split <;> omega

/-! ## The claims -/

/-- C1 (bounds invariant): for every chunk size above zero, from the freshly
opened state and after every sequence of write and drain calls whose sink reports
per call no more frames than offered, the capacity is twice the chunk size, the
occupancy is at most the capacity and both cursors are below the capacity. -/
theorem C1_bounds_invariant {σ : Type} (chunk_size : Nat) (hpos : 0 < chunk_size)
    (cb : BatchCb σ) (hcb : SinkBounded cb) (mixbuf ringbuffer : Nat → Nat) (w0 : σ)
    (cs : List Call) :
    (run cb cs (opened chunk_size mixbuf ringbuffer, w0)).1.ringbuffer_size = 2 * chunk_size ∧
    (run cb cs (opened chunk_size mixbuf ringbuffer, w0)).1.ringbuffer_used ≤
      (run cb cs (opened chunk_size mixbuf ringbuffer, w0)).1.ringbuffer_size ∧
    (run cb cs (opened chunk_size mixbuf ringbuffer, w0)).1.ringbuffer_readpos <
      (run cb cs (opened chunk_size mixbuf ringbuffer, w0)).1.ringbuffer_size ∧
    (run cb cs (opened chunk_size mixbuf ringbuffer, w0)).1.ringbuffer_writepos <
      (run cb cs (opened chunk_size mixbuf ringbuffer, w0)).1.ringbuffer_size := by
  have h := bounds_run cb hcb chunk_size cs (opened chunk_size mixbuf ringbuffer, w0)
    (bounds_opened chunk_size hpos mixbuf ringbuffer)
  obtain ⟨_, h2, h3, h4, h5⟩ := h
  exact ⟨by omega, h5, h4, h3⟩

/-- C1 at chunk size 4 over three writes and a drain. -/
theorem C1_bounds_invariant_witness :
    0 < 4 ∧ SinkBounded sink_all ∧
    (run sink_all [Call.write (ramp 1), Call.write (ramp 5), Call.write (ramp 9), Call.drain]
      (opened 4 zeros zeros, [])).1.ringbuffer_size = 2 * 4 ∧
    (run sink_all [Call.write (ramp 1), Call.write (ramp 5), Call.write (ramp 9), Call.drain]
      (opened 4 zeros zeros, [])).1.ringbuffer_used ≤
    (run sink_all [Call.write (ramp 1), Call.write (ramp 5), Call.write (ramp 9), Call.drain]
      (opened 4 zeros zeros, [])).1.ringbuffer_size :=
  ⟨by decide, sink_all_bounded,
   (C1_bounds_invariant 4 (by decide) sink_all sink_all_bounded zeros zeros []
      [Call.write (ramp 1), Call.write (ramp 5), Call.write (ramp 9), Call.drain]).1,
   (C1_bounds_invariant 4 (by decide) sink_all sink_all_bounded zeros zeros []
      [Call.write (ramp 1), Call.write (ramp 5), Call.write (ramp 9), Call.drain]).2.1⟩

/-- C3 (no loss below capacity): for a chunk size that is a positive multiple of 4 and
a reachable state with used = 0, after one write, or after two writes, a single drain
into a sink that takes everything hands the sink exactly the bytes written, in write
order, read from the ring buffer at the logged offsets, and leaves used = 0, also
when `mixbuf` has meanwhile been filled with another chunk `c`. -/
theorem C3_round_trip {σ τ : Type} (m : Nat) (hm : 0 < m)
    (cb : BatchCb σ) (hcb : SinkBounded cb) (mixbuf ringbuffer : Nat → Nat) (w0 : σ)
    (cs : List Call) (s : SDL_PrivateAudioData)
    (hs : s = (run cb cs (opened (4 * m) mixbuf ringbuffer, w0)).1)
    (hempty : s.ringbuffer_used = 0)
    (sink : BatchCb τ) (hall : SinkTakesAll sink) (v : τ) (a b c : Nat → Nat) :
    (offered_bytes (push_audio (fill_mixbuf s a)).ringbuffer
        (pop_audio (logged sink) (push_audio (fill_mixbuf s a)) (v, [])).2.2
      = bytes a 0 (4 * m) ∧
     (pop_audio sink (push_audio (fill_mixbuf s a)) v).1.ringbuffer_used = 0 ∧
     (pop_audio (handed sink) (fill_mixbuf (push_audio (fill_mixbuf s a)) c) (v, [])).2.2
      = bytes a 0 (4 * m) ∧
     (pop_audio sink (fill_mixbuf (push_audio (fill_mixbuf s a)) c) v).1.ringbuffer_used
      = 0) ∧
    (offered_bytes (push_audio (fill_mixbuf (push_audio (fill_mixbuf s a)) b)).ringbuffer
        (pop_audio (logged sink)
          (push_audio (fill_mixbuf (push_audio (fill_mixbuf s a)) b)) (v, [])).2.2
      = bytes a 0 (4 * m) ++ bytes b 0 (4 * m) ∧
     (pop_audio sink
        (push_audio (fill_mixbuf (push_audio (fill_mixbuf s a)) b)) v).1.ringbuffer_used = 0 ∧
     (pop_audio (handed sink)
        (fill_mixbuf (push_audio (fill_mixbuf (push_audio (fill_mixbuf s a)) b)) c)
        (v, [])).2.2
      = bytes a 0 (4 * m) ++ bytes b 0 (4 * m) ∧
     (pop_audio sink
        (fill_mixbuf (push_audio (fill_mixbuf (push_audio (fill_mixbuf s a)) b)) c)
        v).1.ringbuffer_used = 0) := by
  have hfr : Framed (4 * m) s := by
    rw [hs]
    exact framed_run cb hcb (4 * m) cs _
      (framed_opened (4 * m) (by omega) (by omega) mixbuf ringbuffer)
  have hfa := framed_fill (4 * m) s a hfr
  have hf1 := framed_push (4 * m) _ hfa
  have hf2 := framed_push (4 * m) _ (framed_fill (4 * m) _ b hf1)
  constructor
  · obtain ⟨k1, k2, k3, k4⟩ := framed_runs _ _ hf1
    have hp := pop_all_framed sink hall (push_audio (fill_mixbuf s a)) v k1 k2 k3 k4
    have hone := fifo_after_one_push (4 * m) (fill_mixbuf s a) hfa hempty
    rw [fill_mixbuf_mixbuf] at hone
    have hoff : offered_bytes (push_audio (fill_mixbuf s a)).ringbuffer
        (pop_audio (logged sink) (push_audio (fill_mixbuf s a)) (v, [])).2.2
        = bytes a 0 (4 * m) := by
      rw [hp.2.2.2.1, hone.1, hone.2]
    obtain ⟨g1, g2, g3, g4⟩ := framed_runs _ _ (framed_fill (4 * m) _ c hf1)
    have hpc := pop_all_framed sink hall
      (fill_mixbuf (push_audio (fill_mixbuf s a)) c) v g1 g2 g3 g4
    refine ⟨hoff, hp.2.2.2.2.1, ?_, hpc.2.2.2.2.1⟩
    rw [pop_audio_handed, hpc.2.2.2.1]
    exact (hone.1 ▸ hone.2)
  · obtain ⟨k1, k2, k3, k4⟩ := framed_runs _ _ hf2
    have hp := pop_all_framed sink hall
      (push_audio (fill_mixbuf (push_audio (fill_mixbuf s a)) b)) v k1 k2 k3 k4
    have htwo := fifo_after_two_pushes (4 * m) (fill_mixbuf s a) b hfa
    rw [fill_mixbuf_mixbuf] at htwo
    have hoff : offered_bytes
        (push_audio (fill_mixbuf (push_audio (fill_mixbuf s a)) b)).ringbuffer
        (pop_audio (logged sink)
          (push_audio (fill_mixbuf (push_audio (fill_mixbuf s a)) b)) (v, [])).2.2
        = bytes a 0 (4 * m) ++ bytes b 0 (4 * m) := by
      rw [hp.2.2.2.1, htwo.1, htwo.2]
    obtain ⟨g1, g2, g3, g4⟩ := framed_runs _ _ (framed_fill (4 * m) _ c hf2)
    have hpc := pop_all_framed sink hall
      (fill_mixbuf (push_audio (fill_mixbuf (push_audio (fill_mixbuf s a)) b)) c) v
      g1 g2 g3 g4
    refine ⟨hoff, hp.2.2.2.2.1, ?_, hpc.2.2.2.2.1⟩
    rw [pop_audio_handed, hpc.2.2.2.1]
    exact (htwo.1 ▸ htwo.2)

/-- C3 at the first example of the spec: capacity 8, chunk size 4, the writes `[1,2,3,4]`
and `[5,6,7,8]` give write_pos = 0 and used = 8; the drain delivers `[1..8]` and
leaves used = 0. -/
theorem C3_round_trip_witness :
    0 < 1 ∧ SinkBounded sink_all ∧ (opened (4 * 1) zeros zeros).ringbuffer_used = 0 ∧
    SinkTakesAll sink_all ∧
    (offered_bytes
        (push_audio (fill_mixbuf (push_audio (fill_mixbuf (opened (4 * 1) zeros zeros)
          (ramp 1))) (ramp 5))).ringbuffer
        (pop_audio (logged sink_all)
          (push_audio (fill_mixbuf (push_audio (fill_mixbuf (opened (4 * 1) zeros zeros)
            (ramp 1))) (ramp 5))) ([], [])).2.2
      = bytes (ramp 1) 0 (4 * 1) ++ bytes (ramp 5) 0 (4 * 1) ∧
     (pop_audio sink_all
        (push_audio (fill_mixbuf (push_audio (fill_mixbuf (opened (4 * 1) zeros zeros)
          (ramp 1))) (ramp 5))) []).1.ringbuffer_used = 0 ∧
     (pop_audio (handed sink_all)
        (fill_mixbuf
          (push_audio (fill_mixbuf (push_audio (fill_mixbuf (opened (4 * 1) zeros zeros)
            (ramp 1))) (ramp 5))) (ramp 90)) ([], [])).2.2
      = bytes (ramp 1) 0 (4 * 1) ++ bytes (ramp 5) 0 (4 * 1) ∧
     (pop_audio sink_all
        (fill_mixbuf
          (push_audio (fill_mixbuf (push_audio (fill_mixbuf (opened (4 * 1) zeros zeros)
            (ramp 1))) (ramp 5))) (ramp 90)) []).1.ringbuffer_used = 0) ∧
    full_state.ringbuffer_writepos = 0 ∧ full_state.ringbuffer_used = 8 ∧
    (pop_audio (handed sink_all) full_state ([], [])).2.2 = [1, 2, 3, 4, 5, 6, 7, 8] ∧
    (pop_audio sink_all full_state []).2 = [1, 2, 3, 4, 5, 6, 7, 8] :=
  ⟨by decide, sink_all_bounded, rfl, sink_all_takes_all,
   (C3_round_trip 1 (by decide) sink_all sink_all_bounded zeros zeros [] []
      (opened (4 * 1) zeros zeros) rfl rfl sink_all sink_all_takes_all [] (ramp 1) (ramp 5)
      (ramp 90)).2,
   by decide, by decide, by decide, by decide⟩

/-- C4 (overflow drops oldest): for a chunk size that is a positive multiple of 4 and
an empty reachable buffer, after three or more writes in a row (the chunks
pre ++ [a, b] with pre not empty) a single drain into a sink that takes everything
hands the sink exactly C bytes, the last two chunks a and then b, read from the ring
buffer, and leaves used = 0, also when `mixbuf` has meanwhile been filled with
another chunk `c`. -/
theorem C4_overflow_drops_oldest {σ τ : Type} (m : Nat) (hm : 0 < m)
    (cb : BatchCb σ) (hcb : SinkBounded cb) (mixbuf ringbuffer : Nat → Nat) (w0 : σ)
    (cs : List Call) (x : SDL_PrivateAudioData × σ)
    (hx : x = run cb cs (opened (4 * m) mixbuf ringbuffer, w0))
    (_hempty : x.1.ringbuffer_used = 0)
    (pre : List (Nat → Nat)) (_hpre : 1 ≤ pre.length) (a b : Nat → Nat)
    (t : SDL_PrivateAudioData)
    (ht : t = (run cb ((pre ++ [a, b]).map Call.write) x).1)
    (sink : BatchCb τ) (hall : SinkTakesAll sink) (v : τ) (c : Nat → Nat) :
    offered_bytes t.ringbuffer (pop_audio (logged sink) t (v, [])).2.2
      = bytes a 0 (4 * m) ++ bytes b 0 (4 * m) ∧
    (offered_bytes t.ringbuffer (pop_audio (logged sink) t (v, [])).2.2).length
      = t.ringbuffer_size ∧
    (pop_audio sink t v).1.ringbuffer_used = 0 ∧
    (pop_audio (handed sink) (fill_mixbuf t c) (v, [])).2.2
      = bytes a 0 (4 * m) ++ bytes b 0 (4 * m) ∧
    ((pop_audio (handed sink) (fill_mixbuf t c) (v, [])).2.2).length = t.ringbuffer_size ∧
    (pop_audio sink (fill_mixbuf t c) v).1.ringbuffer_used = 0 := by
  have hfx : Framed (4 * m) x.1 := by
    rw [hx]
    exact framed_run cb hcb (4 * m) cs _
      (framed_opened (4 * m) (by omega) (by omega) mixbuf ringbuffer)
  have hfp := framed_run cb hcb (4 * m) (pre.map Call.write) x hfx
  have hteq : t = push_audio (fill_mixbuf (push_audio
      (fill_mixbuf (run cb (pre.map Call.write) x).1 a)) b) := by
    rw [ht, List.map_append, run_append]
    rfl
  have hfa := framed_fill (4 * m) _ a hfp
  have hf2 := framed_push (4 * m) _ (framed_fill (4 * m) _ b (framed_push (4 * m) _ hfa))
  rw [← hteq] at hf2
  obtain ⟨k1, k2, k3, k4⟩ := framed_runs _ _ hf2
  have hp := pop_all_framed sink hall t v k1 k2 k3 k4
  have htwo := fifo_after_two_pushes (4 * m) _ b hfa
  rw [fill_mixbuf_mixbuf, ← hteq] at htwo
  have hoff : offered_bytes t.ringbuffer (pop_audio (logged sink) t (v, [])).2.2
      = bytes a 0 (4 * m) ++ bytes b 0 (4 * m) := by
    rw [hp.2.2.2.1, htwo.1, htwo.2]
  obtain ⟨g1, g2, g3, g4⟩ := framed_runs _ _ (framed_fill (4 * m) _ c hf2)
  have hpc := pop_all_framed sink hall (fill_mixbuf t c) v g1 g2 g3 g4
  have hhand : (pop_audio (handed sink) (fill_mixbuf t c) (v, [])).2.2
      = bytes a 0 (4 * m) ++ bytes b 0 (4 * m) := by
    rw [pop_audio_handed, hpc.2.2.2.1]
    exact (htwo.1 ▸ htwo.2)
  refine ⟨hoff, ?_, hp.2.2.2.2.1, hhand, ?_, hpc.2.2.2.2.1⟩
  · rw [hoff, List.length_append, bytes_length, bytes_length, hf2.1.2.1]
    omega
  · rw [hhand, List.length_append, bytes_length, bytes_length, hf2.1.2.1]
    omega

/-- C4 at chunk size 4: after the writes `[1..4]`, `[5..8]`, `[9..12]`, and with
`mixbuf` refilled with `[90..93]`, the drain hands the sink `[5..12]`. -/
theorem C4_overflow_drops_oldest_witness :
    0 < 1 ∧ SinkBounded sink_all ∧ (opened (4 * 1) zeros zeros).ringbuffer_used = 0 ∧
    1 ≤ [ramp 1].length ∧ SinkTakesAll sink_all ∧
    (offered_bytes demo_state.ringbuffer (pop_audio (logged sink_all) demo_state ([], [])).2.2
      = bytes (ramp 5) 0 (4 * 1) ++ bytes (ramp 9) 0 (4 * 1) ∧
     (offered_bytes demo_state.ringbuffer
        (pop_audio (logged sink_all) demo_state ([], [])).2.2).length
      = demo_state.ringbuffer_size ∧
     (pop_audio sink_all demo_state []).1.ringbuffer_used = 0 ∧
     (pop_audio (handed sink_all) (fill_mixbuf demo_state (ramp 90)) ([], [])).2.2
      = bytes (ramp 5) 0 (4 * 1) ++ bytes (ramp 9) 0 (4 * 1) ∧
     ((pop_audio (handed sink_all) (fill_mixbuf demo_state (ramp 90)) ([], [])).2.2).length
      = demo_state.ringbuffer_size ∧
     (pop_audio sink_all (fill_mixbuf demo_state (ramp 90)) []).1.ringbuffer_used = 0) ∧
    (pop_audio (handed sink_all) (fill_mixbuf demo_state (ramp 90)) ([], [])).2.2
      = [5, 6, 7, 8, 9, 10, 11, 12] ∧
    (pop_audio sink_all (fill_mixbuf demo_state (ramp 90)) []).2
      = [5, 6, 7, 8, 9, 10, 11, 12] :=
  ⟨by decide, sink_all_bounded, rfl, by decide, sink_all_takes_all,
   C4_overflow_drops_oldest 1 (by decide) sink_all sink_all_bounded zeros zeros [] []
      (opened (4 * 1) zeros zeros, []) rfl rfl [ramp 1] (by decide) (ramp 5) (ramp 9)
      demo_state rfl sink_all sink_all_takes_all [] (ramp 90),
   by decide, by decide⟩

/-- C5 (write placement with wraparound): with the write cursor below the capacity
and a chunk no longer than the capacity, push_audio stores byte i of the chunk at
index (write_pos + i) mod C, the first min(chunk_size, C - write_pos) bytes from
write_pos onward and the rest from index 0, leaves every other byte unchanged and
moves the write cursor to (write_pos + chunk_size) mod C. -/
theorem C5_write_placement (s : SDL_PrivateAudioData)
    (hw : s.ringbuffer_writepos < s.ringbuffer_size) (hm : s.mixlen ≤ s.ringbuffer_size) :
    (∀ i, i < s.mixlen →
      (push_audio s).ringbuffer ((s.ringbuffer_writepos + i) % s.ringbuffer_size) = s.mixbuf i) ∧
    (∀ i, i < min s.mixlen (s.ringbuffer_size - s.ringbuffer_writepos) →
      (push_audio s).ringbuffer (s.ringbuffer_writepos + i) = s.mixbuf i) ∧
    (∀ i, min s.mixlen (s.ringbuffer_size - s.ringbuffer_writepos) ≤ i → i < s.mixlen →
      (push_audio s).ringbuffer (i - min s.mixlen (s.ringbuffer_size - s.ringbuffer_writepos))
        = s.mixbuf i) ∧
    (∀ j, (∀ i, i < s.mixlen → j ≠ (s.ringbuffer_writepos + i) % s.ringbuffer_size) →
      (push_audio s).ringbuffer j = s.ringbuffer j) ∧
    (push_audio s).ringbuffer_writepos =
      (s.ringbuffer_writepos + s.mixlen) % s.ringbuffer_size := by
  have hplace := push_audio_places s hw hm
  refine ⟨hplace, ?_, ?_, push_audio_keeps s hw hm, push_audio_writepos s⟩
  · intro i hi
    have h := hplace i (by omega)
    rwa [Nat.mod_eq_of_lt (by omega)] at h
  · intro i h1 h2
    have h := hplace i h2
    rw [mod_wrap _ _ (by omega)] at h
    by_cases hc : s.mixlen ≤ s.ringbuffer_size - s.ringbuffer_writepos
    · omega
    · rw [if_neg (by omega)] at h
      rw [← h]
      congr 1; omega

/-- C5 at the second example of the spec: capacity 8, chunk size 4, write_pos = 6; the
chunk `[65, 66, 67, 68]` lands at indices 6, 7, 0, 1 and write_pos becomes 2. -/
theorem C5_write_placement_witness :
    wrapped_state.ringbuffer_writepos < wrapped_state.ringbuffer_size ∧
    wrapped_state.mixlen ≤ wrapped_state.ringbuffer_size ∧
    (∀ i, i < wrapped_state.mixlen →
      (push_audio wrapped_state).ringbuffer
        ((wrapped_state.ringbuffer_writepos + i) % wrapped_state.ringbuffer_size)
        = wrapped_state.mixbuf i) ∧
    bytes wrapped_state.ringbuffer 0 8 = [50, 51, 52, 53, 54, 55, 56, 57] ∧
    bytes (push_audio wrapped_state).ringbuffer 0 8 = [67, 68, 52, 53, 54, 55, 65, 66] ∧
    (push_audio wrapped_state).ringbuffer_writepos = 2 :=
  ⟨by decide, by decide, (C5_write_placement wrapped_state (by decide) (by decide)).1,
   by decide, by decide, by decide⟩

/-- C6 as stated does not hold for every state with used <= C and read_pos < C: with
capacity 8, chunk size 4 and write_pos = 12 the subtraction on line 60 wraps in
size_t and the memcpy on line 64 leaves the ring buffer; with capacity 8, write_pos
= 0 and a chunk of 20 bytes the memcpy on line 65 copies 12 bytes into a buffer of
8.  In neither state does the call complete normally. -/
theorem C6_counterexample_out_of_bounds :
    stray_state.ringbuffer_used ≤ stray_state.ringbuffer_size ∧
    stray_state.ringbuffer_readpos < stray_state.ringbuffer_size ∧
    stray_state.ringbuffer_size = 8 ∧ stray_state.mixlen = 4 ∧
    stray_state.ringbuffer_writepos = 12 ∧
    stray_state.ringbuffer_writepos + stray_state.mixlen > stray_state.ringbuffer_size ∧
    ¬ (stray_state.ringbuffer_writepos ≤ stray_state.ringbuffer_size) ∧
    (push_audio_checked stray_state).isSome = false ∧
    long_chunk_state.ringbuffer_used ≤ long_chunk_state.ringbuffer_size ∧
    long_chunk_state.ringbuffer_readpos < long_chunk_state.ringbuffer_size ∧
    long_chunk_state.ringbuffer_size = 8 ∧ long_chunk_state.mixlen = 20 ∧
    long_chunk_state.ringbuffer_writepos = 0 ∧
    long_chunk_state.mixlen
      - (long_chunk_state.ringbuffer_size - long_chunk_state.ringbuffer_writepos) = 12 ∧
    (push_audio_checked long_chunk_state).isSome = false := by
  refine ⟨?_, ?_, ?_, ?_, ?_, ?_, ?_, ?_, ?_, ?_, ?_, ?_, ?_, ?_, ?_⟩ <;> decide

/-- C6 (overflow correction arithmetic, amended to states with write_pos < C and
chunk_size <= C): with the occupancy at most the capacity, both cursors below the
capacity and a chunk no longer than the capacity, push_audio meets the side
conditions of the C code, so the call completes normally with no error result, and
it ends with used = min(used + chunk_size, C); when used + chunk_size exceeds C the
read cursor becomes (read_pos + (used + chunk_size - C)) mod C, otherwise it is
unchanged. -/
theorem C6_overflow_correction (s : SDL_PrivateAudioData)
    (_hu : s.ringbuffer_used ≤ s.ringbuffer_size)
    (_hr : s.ringbuffer_readpos < s.ringbuffer_size)
    (hw : s.ringbuffer_writepos < s.ringbuffer_size)
    (hm : s.mixlen ≤ s.ringbuffer_size) :
    push_audio_checked s = some (push_audio s) ∧
    (push_audio s).ringbuffer_used = min (s.ringbuffer_used + s.mixlen) s.ringbuffer_size ∧
    (s.ringbuffer_used + s.mixlen > s.ringbuffer_size →
      (push_audio s).ringbuffer_readpos =
        (s.ringbuffer_readpos + (s.ringbuffer_used + s.mixlen - s.ringbuffer_size))
          % s.ringbuffer_size) ∧
    (s.ringbuffer_used + s.mixlen ≤ s.ringbuffer_size →
      (push_audio s).ringbuffer_readpos = s.ringbuffer_readpos) := by
  rw [push_audio_used, push_audio_readpos]
  refine ⟨push_audio_checked_some s hw hm, ?_, ?_, ?_⟩
  · split <;> omega
  · intro h
    rw [if_pos h]
    congr 1; omega
  · intro h
    rw [if_neg (by omega)]

/-- C6 (amended) on a full buffer of capacity 12 with chunk size 6 and both cursors
at 6: the write is in bounds, used stays 12 and the read cursor moves from 6 to 0. -/
theorem C6_overflow_correction_witness :
    skew_state.ringbuffer_used ≤ skew_state.ringbuffer_size ∧
    skew_state.ringbuffer_readpos < skew_state.ringbuffer_size ∧
    skew_state.ringbuffer_writepos < skew_state.ringbuffer_size ∧
    skew_state.mixlen ≤ skew_state.ringbuffer_size ∧
    push_audio_checked skew_state = some (push_audio skew_state) ∧
    (push_audio skew_state).ringbuffer_used =
      min (skew_state.ringbuffer_used + skew_state.mixlen) skew_state.ringbuffer_size ∧
    (push_audio skew_state).ringbuffer_used = 12 ∧
    (push_audio skew_state).ringbuffer_readpos = 0 :=
  ⟨by decide, by decide, by decide, by decide,
   (C6_overflow_correction skew_state (by decide) (by decide) (by decide) (by decide)).1,
   (C6_overflow_correction skew_state (by decide) (by decide) (by decide) (by decide)).2.1,
   by decide, by decide⟩

/-- C7 as stated fails at the second example of the spec: after the write into the wrapped
layout (capacity 8, read cursor 2, 8 unread bytes) first_run is 6 and second_run is
2, but a drain into a sink that takes everything makes one call of 1 frame (4 bytes)
at read_pos, never offers the wrapped part, and leaves used = 4. -/
theorem C7_counterexample_wrapped :
    SinkTakesAll sink_all ∧
    (push_audio wrapped_state).ringbuffer_size = 8 ∧
    (push_audio wrapped_state).ringbuffer_readpos = 2 ∧
    (push_audio wrapped_state).ringbuffer_used = 8 ∧
    bytes (push_audio wrapped_state).ringbuffer 0 8 = [67, 68, 52, 53, 54, 55, 65, 66] ∧
    first_run (push_audio wrapped_state) = 6 ∧
    second_run (push_audio wrapped_state) = 2 ∧
    (pop_audio (logged sink_all) (push_audio wrapped_state) ([], [])).2.2 = [(2, 1)] ∧
    (pop_audio sink_all (push_audio wrapped_state) []).2 = [52, 53, 54, 55] ∧
    (pop_audio sink_all (push_audio wrapped_state) []).1.ringbuffer_used = 4 := by
  refine ⟨fun _ _ _ _ => rfl, ?_, ?_, ?_, ?_, ?_, ?_, ?_, ?_, ?_⟩ <;> decide

/-- C7 (drain across the wrap boundary, amended to states whose first_run and
second_run are whole 4-byte frames): with the read cursor below the capacity and the
occupancy at most the capacity, a drain into a sink that takes everything offers
first_run = min(used, C - read_pos) bytes at read_pos and then, when second_run =
used - first_run is above zero, second_run bytes at index 0; the bytes handed to the
sink, read through the pointers it receives, are the used unread bytes in FIFO order
and used becomes 0. -/
theorem C7_drain_across_wrap {σ : Type} (cb : BatchCb σ) (hall : SinkTakesAll cb)
    (s : SDL_PrivateAudioData) (w : σ)
    (hr : s.ringbuffer_readpos < s.ringbuffer_size)
    (hu : s.ringbuffer_used ≤ s.ringbuffer_size)
    (h1 : first_run s % 4 = 0) (h2 : second_run s % 4 = 0) :
    (pop_audio (logged cb) s (w, [])).2.2 =
      (if second_run s > 0
       then [(s.ringbuffer_readpos, first_run s / 4), (0, second_run s / 4)]
       else [(s.ringbuffer_readpos, first_run s / 4)]) ∧
    4 * (first_run s / 4) = first_run s ∧ 4 * (second_run s / 4) = second_run s ∧
    offered_bytes s.ringbuffer (pop_audio (logged cb) s (w, [])).2.2 =
      bytes s.ringbuffer s.ringbuffer_readpos (first_run s)
        ++ bytes s.ringbuffer 0 (second_run s) ∧
    offered_bytes s.ringbuffer (pop_audio (logged cb) s (w, [])).2.2
      = fifo s s.ringbuffer_used ∧
    (pop_audio cb s w).1.ringbuffer_used = 0 ∧
    (pop_audio (handed cb) s (w, [])).2.2 =
      bytes s.ringbuffer s.ringbuffer_readpos (first_run s)
        ++ bytes s.ringbuffer 0 (second_run s) ∧
    (pop_audio (handed cb) s (w, [])).2.2 = fifo s s.ringbuffer_used := by
  unfold second_run first_run at *
  obtain ⟨hf, hs, hcalls, hoff, hused, _⟩ := pop_all_framed cb hall s w hr hu h1 h2
  have hf4 : pop_first_chunk s =
      min s.ringbuffer_used (s.ringbuffer_size - s.ringbuffer_readpos) / 4 := by omega
  have hs4 : pop_second_chunk s =
      (s.ringbuffer_used
        - min s.ringbuffer_used (s.ringbuffer_size - s.ringbuffer_readpos)) / 4 := by omega
  have hpos : pop_second_chunk s > 0 ↔
      s.ringbuffer_used
        - min s.ringbuffer_used (s.ringbuffer_size - s.ringbuffer_readpos) > 0 := by omega
  have hsplit : offered_bytes s.ringbuffer (pop_audio (logged cb) s (w, [])).2.2 =
      bytes s.ringbuffer s.ringbuffer_readpos
          (min s.ringbuffer_used (s.ringbuffer_size - s.ringbuffer_readpos))
        ++ bytes s.ringbuffer 0
          (s.ringbuffer_used
            - min s.ringbuffer_used (s.ringbuffer_size - s.ringbuffer_readpos)) := by
    rw [hcalls]
    split
    · rw [offered_bytes_two, hf, hs]
    · rename_i hz
      have hz2 : s.ringbuffer_used
          - min s.ringbuffer_used (s.ringbuffer_size - s.ringbuffer_readpos) = 0 := by omega
      rw [offered_bytes_one, hf, hz2]
      simp [bytes]
  refine ⟨?_, by omega, by omega, hsplit, hoff, hused, ?_, ?_⟩
  · rw [hcalls, ← hf4, ← hs4]
    by_cases hp : pop_second_chunk s > 0
    · rw [if_pos hp, if_pos (hpos.mp hp)]
    · rw [if_neg hp, if_neg (fun h => hp (hpos.mpr h))]
  · rw [pop_audio_handed]
    exact hsplit
  · rw [pop_audio_handed]
    exact hoff

/-- C7 (amended) on a full buffer of capacity 8 with both cursors at 4, while
`mixbuf` holds another chunk: the drain hands the sink 4 bytes from index 4 and then
4 bytes from index 0, the 8 unread bytes in FIFO order. -/
theorem C7_drain_across_wrap_witness :
    SinkTakesAll sink_all ∧
    (fill_mixbuf demo_state (ramp 90)).ringbuffer_readpos
      < (fill_mixbuf demo_state (ramp 90)).ringbuffer_size ∧
    (fill_mixbuf demo_state (ramp 90)).ringbuffer_used
      ≤ (fill_mixbuf demo_state (ramp 90)).ringbuffer_size ∧
    first_run (fill_mixbuf demo_state (ramp 90)) % 4 = 0 ∧
    second_run (fill_mixbuf demo_state (ramp 90)) % 4 = 0 ∧
    (pop_audio (handed sink_all) (fill_mixbuf demo_state (ramp 90)) ([], [])).2.2
      = fifo (fill_mixbuf demo_state (ramp 90))
          (fill_mixbuf demo_state (ramp 90)).ringbuffer_used ∧
    (pop_audio (logged sink_all) (fill_mixbuf demo_state (ramp 90)) ([], [])).2.2
      = [(4, 1), (0, 1)] ∧
    (pop_audio (handed sink_all) (fill_mixbuf demo_state (ramp 90)) ([], [])).2.2
      = [5, 6, 7, 8, 9, 10, 11, 12] :=
  ⟨sink_all_takes_all, by decide, by decide, by decide, by decide,
   (C7_drain_across_wrap sink_all sink_all_takes_all (fill_mixbuf demo_state (ramp 90)) []
      (by decide) (by decide) (by decide) (by decide)).2.2.2.2.2.2.2,
   by decide, by decide⟩

/-- C8 (sink takes less than offered): with the read cursor below the capacity and the
occupancy at most the capacity, when the sink reports in its first call fewer frames
than offered, the sink is called exactly once, the occupancy decreases by exactly
the bytes reported (4 per frame), the read cursor advances by that amount modulo C,
and the write cursor and the storage are unchanged. -/
theorem C8_sink_takes_less {σ : Type} (cb : BatchCb σ) (s : SDL_PrivateAudioData) (w : σ)
    (hr : s.ringbuffer_readpos < s.ringbuffer_size)
    (hu : s.ringbuffer_used ≤ s.ringbuffer_size)
    (hlt : (cb w s.ringbuffer s.ringbuffer_readpos (pop_first_chunk s)).1 < pop_first_chunk s) :
    (pop_audio (logged cb) s (w, [])).2.2 = [(s.ringbuffer_readpos, pop_first_chunk s)] ∧
    (pop_audio cb s w).1.ringbuffer_used +
        4 * (cb w s.ringbuffer s.ringbuffer_readpos (pop_first_chunk s)).1 = s.ringbuffer_used ∧
    (pop_audio cb s w).1.ringbuffer_readpos =
        (s.ringbuffer_readpos +
          4 * (cb w s.ringbuffer s.ringbuffer_readpos (pop_first_chunk s)).1) % s.ringbuffer_size ∧
    (pop_audio cb s w).1.ringbuffer_writepos = s.ringbuffer_writepos ∧
    (pop_audio cb s w).1.ringbuffer = s.ringbuffer := by
  have hsub : (pop_submit cb s w).1 =
      (cb w s.ringbuffer s.ringbuffer_readpos (pop_first_chunk s)).1 := by
    unfold pop_submit
    simp only []
    rw [if_neg (by omega)]
  have hle := pop_chunks_le s hr hu
  refine ⟨?_, ?_, ?_, rfl, rfl⟩
  · rw [pop_audio_snd, pop_submit_logged, if_neg (by omega)]
    rfl
  · rw [pop_audio_fst, hsub]
    simp only []
    omega
  · rw [pop_audio_fst, hsub]
    simp only []
    congr 1; omega

/-- C8 on a full buffer of capacity 8 read from index 0: the sink is offered 2 frames
and takes 1, so used drops from 8 to 4 and the read cursor moves to 4. -/
theorem C8_sink_takes_less_witness :
    full_state.ringbuffer_readpos < full_state.ringbuffer_size ∧
    full_state.ringbuffer_used ≤ full_state.ringbuffer_size ∧
    (sink_one 0 full_state.ringbuffer full_state.ringbuffer_readpos
      (pop_first_chunk full_state)).1 < pop_first_chunk full_state ∧
    (pop_audio (logged sink_one) full_state (0, [])).2.2 =
      [(full_state.ringbuffer_readpos, pop_first_chunk full_state)] ∧
    (pop_audio sink_one full_state 0).1.ringbuffer_used = 4 ∧
    (pop_audio sink_one full_state 0).1.ringbuffer_readpos = 4 :=
  ⟨by decide, by decide, by decide,
   (C8_sink_takes_less sink_one full_state 0 (by decide) (by decide) (by decide)).1,
   by decide, by decide⟩

/-- C9 (idempotent empty drain): with used = 0 and the read cursor below the
capacity, pop_audio calls the sink exactly once with zero frames, and when the sink
reports 0 for an offer of zero frames the whole state is unchanged, also after any
number of repeated drains. -/
theorem C9_empty_drain {σ : Type} (cb : BatchCb σ) (s : SDL_PrivateAudioData) (w : σ)
    (hu : s.ringbuffer_used = 0) (hr : s.ringbuffer_readpos < s.ringbuffer_size)
    (h0 : ∀ v mem off, (cb v mem off 0).1 = 0) :
    (pop_audio (logged cb) s (w, [])).2.2 = [(s.ringbuffer_readpos, 0)] ∧
    (pop_audio cb s w).1 = s ∧
    ∀ k, (run cb (List.replicate k Call.drain) (s, w)).1 = s := by
  have hf : pop_first_chunk s = 0 := by
    unfold pop_first_chunk; rw [hu]; rw [if_neg (by omega)]
  have hs : pop_second_chunk s = 0 := by
    unfold pop_second_chunk; rw [hu]; rw [if_neg (by omega)]
  have hone : ∀ v : σ, (pop_audio cb s v).1 = s := by
    intro v
    have hsub : (pop_submit cb s v).1 = 0 := by
      unfold pop_submit
      simp only [hf, hs]
      rw [if_neg (by omega)]
      exact h0 v _ _
    rw [pop_audio_fst, hsub]
    simp only [Nat.zero_mul, Nat.add_zero, Nat.sub_zero, Nat.mod_eq_of_lt hr]
  refine ⟨?_, hone w, ?_⟩
  · rw [pop_audio_snd, pop_submit_logged, hs, if_neg (by omega), hf]
    rfl
  · intro k
    induction k generalizing w with
    | zero => rfl
    | succ k ih =>
      rw [List.replicate_succ, run_cons]
      have hstep : step cb Call.drain (s, w) = (s, (pop_audio cb s w).2) := by
        show pop_audio cb s w = _
        exact Prod.ext (hone w) rfl
      rw [hstep]
      exact ih _

/-- C9 on the freshly opened buffer of capacity 8. -/
theorem C9_empty_drain_witness :
    (opened 4 zeros zeros).ringbuffer_used = 0 ∧
    (opened 4 zeros zeros).ringbuffer_readpos < (opened 4 zeros zeros).ringbuffer_size ∧
    (∀ v mem off, (sink_all v mem off 0).1 = 0) ∧
    (pop_audio (logged sink_all) (opened 4 zeros zeros) ([], [])).2.2 =
      [((opened 4 zeros zeros).ringbuffer_readpos, 0)] ∧
    (pop_audio sink_all (opened 4 zeros zeros) []).1 = opened 4 zeros zeros :=
  ⟨rfl, by decide, fun _ _ _ => rfl,
   (C9_empty_drain sink_all (opened 4 zeros zeros) [] rfl (by decide) (fun _ _ _ => rfl)).1,
   (C9_empty_drain sink_all (opened 4 zeros zeros) [] rfl (by decide) (fun _ _ _ => rfl)).2.1⟩

/-- C10 (drain never overreads): with the read cursor below the capacity and the
occupancy at most the capacity, the sink is called once at read_pos or twice, at
read_pos and then at index 0; the first run ends at or before C, the second ends at
or before read_pos, the bytes offered in total are at most used, and with a sink that
reports no more than offered the bytes consumed are at most used, so that the
decrement of used does not underflow. -/
theorem C10_no_overread {σ : Type} (cb : BatchCb σ) (s : SDL_PrivateAudioData) (w : σ)
    (hr : s.ringbuffer_readpos < s.ringbuffer_size)
    (hu : s.ringbuffer_used ≤ s.ringbuffer_size) :
    ((pop_audio (logged cb) s (w, [])).2.2 = [(s.ringbuffer_readpos, pop_first_chunk s)] ∨
     (pop_audio (logged cb) s (w, [])).2.2 =
        [(s.ringbuffer_readpos, pop_first_chunk s), (0, pop_second_chunk s)]) ∧
    s.ringbuffer_readpos + 4 * pop_first_chunk s ≤ s.ringbuffer_size ∧
    0 + 4 * pop_second_chunk s ≤ s.ringbuffer_readpos ∧
    (((pop_audio (logged cb) s (w, [])).2.2).map (fun c => 4 * c.2)).sum ≤ s.ringbuffer_used ∧
    (SinkBounded cb →
      (pop_submit cb s w).1 * 4 ≤ s.ringbuffer_used ∧
      (pop_audio cb s w).1.ringbuffer_used + (pop_submit cb s w).1 * 4 = s.ringbuffer_used) := by
  have hle := pop_chunks_le s hr hu
  have hlog := pop_submit_logged cb s w []
  rw [pop_audio_snd, hlog]
  refine ⟨?_, hle.1, by omega, ?_, ?_⟩
  · split
    · right; rfl
    · left; rfl
  · split
    · simp only [List.nil_append, List.map_cons, List.map_nil, List.sum_cons, List.sum_nil]
      omega
    · simp only [List.nil_append, List.map_cons, List.map_nil, List.sum_cons, List.sum_nil]
      omega
  · intro hcb
    have h := pop_submit_bytes_le cb hcb s w hr hu
    refine ⟨h, ?_⟩
    rw [pop_audio_fst]
    simp only []
    omega

/-- C10 on the unaligned state of capacity 12 with read cursor 6 and 12 unread bytes:
8 bytes are offered in two calls. -/
theorem C10_no_overread_witness :
    skew_state.ringbuffer_readpos < skew_state.ringbuffer_size ∧
    skew_state.ringbuffer_used ≤ skew_state.ringbuffer_size ∧
    (((pop_audio (logged sink_all) skew_state ([], [])).2.2).map (fun c => 4 * c.2)).sum
      ≤ skew_state.ringbuffer_used ∧
    (((pop_audio (logged sink_all) skew_state ([], [])).2.2).map (fun c => 4 * c.2)).sum = 8 :=
  ⟨by decide, by decide,
   (C10_no_overread sink_all skew_state [] (by decide) (by decide)).2.2.2.1,
   by decide⟩

/-! ## Claims on the device life cycle and on reachable states -/

/-- C11 (fresh state on every open) does not hold on the code: LIBRETRO_OpenAudio
leaves the cursors and the occupancy as it finds them.  After a first session with
chunk size 8 (one write, one drain of a single frame, close) the device holds
write_pos = 8, read_pos = 4, used = 4; the next open with chunk size 4 returns 0
with capacity 8 and the same write_pos = 8, read_pos = 4, used = 4. -/
theorem C11_reopen_keeps_cursors :
    LIBRETRO_CreateDevice true true = some created ∧
    closed_session.mixbuf_set = false ∧ closed_session.ringbuffer_set = false ∧
    closed_session.data.ringbuffer_writepos = 8 ∧
    closed_session.data.ringbuffer_readpos = 4 ∧
    closed_session.data.ringbuffer_used = 4 ∧
    (LIBRETRO_OpenAudio closed_session (stereo_spec 4) all_allocated).1 = 0 ∧
    (LIBRETRO_OpenAudio closed_session (stereo_spec 4) all_allocated).2.data.mixlen = 4 ∧
    (LIBRETRO_OpenAudio closed_session (stereo_spec 4) all_allocated).2.data.ringbuffer_size
      = 8 ∧
    (LIBRETRO_OpenAudio closed_session (stereo_spec 4) all_allocated).2.data.ringbuffer_writepos
      = 8 ∧
    (LIBRETRO_OpenAudio closed_session (stereo_spec 4) all_allocated).2.data.ringbuffer_readpos
      = 4 ∧
    (LIBRETRO_OpenAudio closed_session (stereo_spec 4) all_allocated).2.data.ringbuffer_used
      = 4 := by
  refine ⟨rfl, ?_, ?_, ?_, ?_, ?_, ?_, ?_, ?_, ?_, ?_, ?_⟩ <;> decide

/-- C12 (capacity is two chunks): a LIBRETRO_OpenAudio that returns 0 has set mixlen
to the requested size and ringbuffer_size to exactly twice that; on a device fresh
from LIBRETRO_CreateDevice, for a size above zero and with the ring buffer storage
allocated, two writes in a row then leave used = C with read_pos still 0, and the
unread content is both chunks in full. -/
theorem C12_capacity_two_chunks (this : Hidden) (spec : SDL_AudioSpec) (res : OpenResults)
    (hok : (LIBRETRO_OpenAudio this spec res).1 = 0) :
    (LIBRETRO_OpenAudio this spec res).2.data.mixlen = spec.size ∧
    (LIBRETRO_OpenAudio this spec res).2.data.ringbuffer_size = 2 * spec.size ∧
    (∀ x y, LIBRETRO_CreateDevice x y = some this → 0 < spec.size →
      (LIBRETRO_OpenAudio this spec res).2.ringbuffer_set = true →
      ∀ a b : Nat → Nat,
        (push_audio (fill_mixbuf (push_audio
            (fill_mixbuf (LIBRETRO_OpenAudio this spec res).2.data a)) b)).ringbuffer_used
          = (push_audio (fill_mixbuf (push_audio
            (fill_mixbuf (LIBRETRO_OpenAudio this spec res).2.data a)) b)).ringbuffer_size ∧
        (push_audio (fill_mixbuf (push_audio
            (fill_mixbuf (LIBRETRO_OpenAudio this spec res).2.data a)) b)).ringbuffer_readpos
          = 0 ∧
        fifo (push_audio (fill_mixbuf (push_audio
            (fill_mixbuf (LIBRETRO_OpenAudio this spec res).2.data a)) b))
          (spec.size + spec.size) = bytes a 0 spec.size ++ bytes b 0 spec.size) := by
  obtain ⟨mixmem, hm⟩ := open_audio_ok this spec res hok
  obtain ⟨_, h1, h2, _⟩ := open_audio_data this spec res mixmem hm
  refine ⟨h1, by omega, ?_⟩
  intro x y hc hpos _ a b
  rw [create_device_eq x y this hc, open_created spec res mixmem hm]
  obtain ⟨k1, k2, k3, k4⟩ := two_pushes_from_opened spec.size hpos
    (memset mixmem spec.silence spec.size)
    (match res.SDL_malloc with
     | some mem => mem
     | none => fun _ => 0) a b
  exact ⟨by rw [k1, k2], k3, k4⟩

/-- C12 on a new device opened with chunk size 4: capacity 8, and after the writes
`[1,2,3,4]` and `[5,6,7,8]` used = 8 with read_pos = 0. -/
theorem C12_capacity_two_chunks_witness :
    (LIBRETRO_OpenAudio created (stereo_spec 4) all_allocated).1 = 0 ∧
    (LIBRETRO_OpenAudio created (stereo_spec 4) all_allocated).2.data.mixlen
      = (stereo_spec 4).size ∧
    (LIBRETRO_OpenAudio created (stereo_spec 4) all_allocated).2.data.ringbuffer_size
      = 2 * (stereo_spec 4).size ∧
    (LIBRETRO_OpenAudio created (stereo_spec 4) all_allocated).2.data.ringbuffer_size = 8 ∧
    (LIBRETRO_OpenAudio created (stereo_spec 4) all_allocated).2.ringbuffer_set = true ∧
    (push_audio (fill_mixbuf (push_audio
        (fill_mixbuf (LIBRETRO_OpenAudio created (stereo_spec 4) all_allocated).2.data
          (ramp 1))) (ramp 5))).ringbuffer_used = 8 ∧
    (push_audio (fill_mixbuf (push_audio
        (fill_mixbuf (LIBRETRO_OpenAudio created (stereo_spec 4) all_allocated).2.data
          (ramp 1))) (ramp 5))).ringbuffer_readpos = 0 :=
  ⟨by decide,
   (C12_capacity_two_chunks created (stereo_spec 4) all_allocated (by decide)).1,
   (C12_capacity_two_chunks created (stereo_spec 4) all_allocated (by decide)).2.1,
   by decide, by decide, by decide,
   ((C12_capacity_two_chunks created (stereo_spec 4) all_allocated (by decide)).2.2
      true true rfl (by decide) (by decide) (ramp 1) (ramp 5)).2.1⟩

/-- C13 (allocation failure is surfaced) does not hold on the code: when the mix
buffer is allocated and SDL_malloc returns NULL for the ring buffer,
LIBRETRO_OpenAudio returns 0 with the ring buffer pointer NULL; only a failed mix
buffer allocation returns -1. -/
theorem C13_ring_alloc_failure_returns_zero :
    ring_alloc_fails.SDL_malloc.isSome = false ∧
    (LIBRETRO_OpenAudio created (stereo_spec 4) ring_alloc_fails).1 = 0 ∧
    (LIBRETRO_OpenAudio created (stereo_spec 4) ring_alloc_fails).2.ringbuffer_set = false ∧
    (LIBRETRO_OpenAudio created (stereo_spec 4) ring_alloc_fails).2.mixbuf_set = true ∧
    (LIBRETRO_OpenAudio created (stereo_spec 4)
      { ring_alloc_fails with SDL_AllocAudioMem := none }).1 = -1 := by
  refine ⟨rfl, ?_, ?_, ?_, ?_⟩ <;> decide

/-- C15 (cursor consistency): for every chunk size above zero, in every state
reachable from the freshly opened buffer by write and drain calls with a sink that
reports no more than offered, (read_pos + used) mod C = write_pos; the two cursors
coincide exactly when the buffer is empty or full; and a write that overflows leaves
the read cursor on the new write cursor. -/
theorem C15_cursor_consistency {σ : Type} (chunk_size : Nat) (hpos : 0 < chunk_size)
    (cb : BatchCb σ) (hcb : SinkBounded cb) (mixbuf ringbuffer : Nat → Nat) (w0 : σ)
    (cs : List Call) (s : SDL_PrivateAudioData)
    (hs : s = (run cb cs (opened chunk_size mixbuf ringbuffer, w0)).1) :
    (s.ringbuffer_readpos + s.ringbuffer_used) % s.ringbuffer_size = s.ringbuffer_writepos ∧
    (s.ringbuffer_readpos = s.ringbuffer_writepos ↔
      (s.ringbuffer_used = 0 ∨ s.ringbuffer_used = s.ringbuffer_size)) ∧
    (∀ chunk : Nat → Nat, s.ringbuffer_used + s.mixlen > s.ringbuffer_size →
      (push_audio (fill_mixbuf s chunk)).ringbuffer_readpos =
        (push_audio (fill_mixbuf s chunk)).ringbuffer_writepos) := by
  have hc : Consistent chunk_size s := by
    rw [hs]
    exact consistent_run cb hcb chunk_size cs _
      (consistent_opened chunk_size hpos mixbuf ringbuffer)
  refine ⟨hc.2, ?_, ?_⟩
  · obtain ⟨⟨h1, h2, h3, h4, h5⟩, h6⟩ := hc
    rw [mod_wrap _ _ (by omega)] at h6
    split_ifs at h6 <;> omega
  · intro chunk hov
    obtain ⟨⟨k1, k2, k3, k4, k5⟩, k6⟩ :=
      consistent_push chunk_size _ (consistent_fill chunk_size s chunk hc)
    have hu : (push_audio (fill_mixbuf s chunk)).ringbuffer_used
        = (push_audio (fill_mixbuf s chunk)).ringbuffer_size := by
      rw [push_audio_used, push_audio_size, fill_mixbuf_used, fill_mixbuf_mixlen,
        fill_mixbuf_size, if_pos hov]
    rw [hu, Nat.add_mod_right, Nat.mod_eq_of_lt k4] at k6
    exact k6

/-- C15 at chunk size 6 (capacity 12) in the state after a write, a drain and two
writes: read_pos = write_pos = 6 with the buffer full. -/
theorem C15_cursor_consistency_witness :
    0 < 6 ∧ SinkBounded sink_all ∧
    (skew_state.ringbuffer_readpos + skew_state.ringbuffer_used) % skew_state.ringbuffer_size
      = skew_state.ringbuffer_writepos ∧
    skew_state.ringbuffer_readpos = 6 ∧ skew_state.ringbuffer_writepos = 6 ∧
    skew_state.ringbuffer_used = 12 :=
  ⟨by decide, sink_all_bounded,
   (C15_cursor_consistency 6 (by decide) sink_all sink_all_bounded zeros zeros []
      [Call.write (ramp 10), Call.drain, Call.write (ramp 20), Call.write (ramp 30)]
      skew_state rfl).1,
   by decide, by decide, by decide⟩

/-- C16 (frame alignment): for a chunk size that is a positive multiple of 4, in
every state reachable from the freshly opened buffer by write and drain calls with a
sink that reports no more frames than offered, read_pos, write_pos and used are
multiples of 4, the two divisions by 4 in pop_audio are exact, and a drain into a
sink that takes everything leaves used = 0. -/
theorem C16_frame_alignment {σ : Type} (m : Nat) (hm : 0 < m)
    (cb : BatchCb σ) (hcb : SinkBounded cb) (mixbuf ringbuffer : Nat → Nat) (w0 : σ)
    (cs : List Call) (s : SDL_PrivateAudioData)
    (hs : s = (run cb cs (opened (4 * m) mixbuf ringbuffer, w0)).1) :
    s.ringbuffer_readpos % 4 = 0 ∧ s.ringbuffer_writepos % 4 = 0 ∧
    s.ringbuffer_used % 4 = 0 ∧
    4 * pop_first_chunk s + 4 * pop_second_chunk s = s.ringbuffer_used ∧
    (∀ (τ : Type) (sink : BatchCb τ), SinkTakesAll sink →
      ∀ v : τ, (pop_audio sink s v).1.ringbuffer_used = 0) := by
  have hfr : Framed (4 * m) s := by
    rw [hs]
    exact framed_run cb hcb (4 * m) cs _
      (framed_opened (4 * m) (by omega) (by omega) mixbuf ringbuffer)
  obtain ⟨k1, k2, k3, k4⟩ := framed_runs _ _ hfr
  obtain ⟨⟨h1, h2, h3, h4, h5⟩, h6, h7, h8, h9⟩ := hfr
  refine ⟨h7, ?_, h8, ?_, ?_⟩
  · rw [mod_wrap _ _ (by omega)] at h9
    split_ifs at h9 <;> omega
  · unfold pop_first_chunk pop_second_chunk
    split <;> omega
  · intro τ sink hall v
    exact (pop_all_framed sink hall s v k1 k2 k3 k4).2.2.2.2.1

/-- C16 at chunk size 4 after three writes: both cursors are at 4, used = 8, the two
runs are one frame each and the drain leaves used = 0. -/
theorem C16_frame_alignment_witness :
    0 < 1 ∧ SinkBounded sink_all ∧
    demo_state.ringbuffer_readpos % 4 = 0 ∧ demo_state.ringbuffer_writepos % 4 = 0 ∧
    demo_state.ringbuffer_used % 4 = 0 ∧
    4 * pop_first_chunk demo_state + 4 * pop_second_chunk demo_state
      = demo_state.ringbuffer_used ∧
    pop_first_chunk demo_state = 1 ∧ pop_second_chunk demo_state = 1 ∧
    (pop_audio sink_all demo_state []).1.ringbuffer_used = 0 :=
  ⟨by decide, sink_all_bounded,
   (C16_frame_alignment 1 (by decide) sink_all sink_all_bounded zeros zeros []
      [Call.write (ramp 1), Call.write (ramp 5), Call.write (ramp 9)] demo_state rfl).1,
   by decide, by decide,
   (C16_frame_alignment 1 (by decide) sink_all sink_all_bounded zeros zeros []
      [Call.write (ramp 1), Call.write (ramp 5), Call.write (ramp 9)] demo_state rfl).2.2.2.1,
   by decide, by decide, by decide⟩

/-- C17 (writes never wrap in reachable states): for every chunk size above zero, in
every state reachable from the freshly opened buffer the write cursor is 0 or
chunk_size, so write_pos + chunk_size never exceeds C, the wrapped second copy has
length 0, and a write stores the whole chunk from write_pos onward, in one half of
the storage, and changes no byte outside that half. -/
theorem C17_writes_never_wrap {σ : Type} (chunk_size : Nat) (hpos : 0 < chunk_size)
    (cb : BatchCb σ) (hcb : SinkBounded cb) (mixbuf ringbuffer : Nat → Nat) (w0 : σ)
    (cs : List Call) (s : SDL_PrivateAudioData)
    (hs : s = (run cb cs (opened chunk_size mixbuf ringbuffer, w0)).1) :
    (s.ringbuffer_writepos = 0 ∨ s.ringbuffer_writepos = chunk_size) ∧
    ¬ (s.ringbuffer_writepos + s.mixlen > s.ringbuffer_size) ∧
    s.mixlen - min s.mixlen (s.ringbuffer_size - s.ringbuffer_writepos) = 0 ∧
    (∀ chunk : Nat → Nat,
      (∀ i, i < chunk_size →
        (push_audio (fill_mixbuf s chunk)).ringbuffer (s.ringbuffer_writepos + i) = chunk i) ∧
      (∀ j, (j < s.ringbuffer_writepos ∨ s.ringbuffer_writepos + chunk_size ≤ j) →
        (push_audio (fill_mixbuf s chunk)).ringbuffer j = s.ringbuffer j)) := by
  have hh : OnHalf chunk_size s := by
    rw [hs]
    exact onhalf_run cb hcb chunk_size cs _ (onhalf_opened chunk_size hpos mixbuf ringbuffer)
  obtain ⟨⟨h1, h2, h3, h4, h5⟩, h6⟩ := hh
  refine ⟨h6, by omega, by omega, ?_⟩
  intro chunk
  constructor
  · intro i hi
    have h := push_audio_places (fill_mixbuf s chunk) h3
      (by rw [fill_mixbuf_mixlen, fill_mixbuf_size]; omega) i
      (by rw [fill_mixbuf_mixlen]; omega)
    rw [fill_mixbuf_writepos, fill_mixbuf_size, fill_mixbuf_mixbuf,
      Nat.mod_eq_of_lt (by omega)] at h
    exact h
  · intro j hj
    have h := push_audio_keeps (fill_mixbuf s chunk) h3
      (by rw [fill_mixbuf_mixlen, fill_mixbuf_size]; omega) j
      (by
        intro i hi
        rw [fill_mixbuf_mixlen] at hi
        rw [fill_mixbuf_writepos, fill_mixbuf_size, Nat.mod_eq_of_lt (by omega)]
        omega)
    rw [fill_mixbuf_ringbuffer] at h
    exact h

/-- C17 at chunk size 6 (capacity 12) in the state after a write, a drain and two
writes: the write cursor is at 6 and the next chunk fills indices 6..11. -/
theorem C17_writes_never_wrap_witness :
    0 < 6 ∧ SinkBounded sink_all ∧
    (skew_state.ringbuffer_writepos = 0 ∨ skew_state.ringbuffer_writepos = 6) ∧
    skew_state.ringbuffer_writepos = 6 ∧
    bytes (push_audio (fill_mixbuf skew_state (ramp 40))).ringbuffer 0 12
      = [30, 31, 32, 33, 34, 35, 40, 41, 42, 43, 44, 45] :=
  ⟨by decide, sink_all_bounded,
   (C17_writes_never_wrap 6 (by decide) sink_all sink_all_bounded zeros zeros []
      [Call.write (ramp 10), Call.drain, Call.write (ramp 20), Call.write (ramp 30)]
      skew_state rfl).1,
   by decide, by decide⟩

end SDLLibretroAudio
